import Mathlib

/-!
# Phantom Framework — EventHub / PluginLoader verification

Shallow embedding of the event-orchestration core of the repository:
`src/core/eventHub.ts` (class `EventHub extends Subject<SpectralEvent>`) and
`src/core/loader.ts` (class `PluginLoader`, found in the sources as
`unnamed/part_005`), plus the wiring in `src/app.ts`.

Conventions of the embedding:

* JS objects mutated in place become explicit state records threaded through
  functions.
* `Math.random()` draws are parameters (oracles) of the model.
* Opaque JS payload values (the `any`-typed `data` / state values) are
  modelled by `String`.
* Wall-clock timestamps (`Date.now()`) are a `Nat` clock carried in the state.
* JS numbers used for haunt levels / intensities / backoff delays are
  modelled as `ℚ` (none of the verified properties depends on float
  rounding).
* An rxjs `Observable` that a plugin returns from `process` is modelled by
  the finite trace it produces: a list of `next` values followed by an
  optional terminal error.
-/

namespace Phantom

/-- Spooky error taxonomy, from `src/core/types.ts` (`SpectralErrorType`). -/
inductive SpectralErrorType where
  | manifestationFailed
  | disturbanceDetected
  | banishmentRequired
  | realmCollapse
deriving DecidableEq, Repr

/-- Plugin lifecycle states, from `src/core/types.ts` (`PluginState`). -/
inductive PluginState where
  | dormant
  | awakening
  | active
  | haunting
  | banished
deriving DecidableEq, Repr

/-- Optional metadata attached to events (`SpectralEvent.metadata`).
Fields are the ones the core reads or writes; `none` models an absent
property on the JS object. -/
structure Metadata where
  haunted : Option Bool := none
  intensity : Option ℚ := none
  spectral_signature : Option String := none
  processed_by : Option String := none
  original_source : Option String := none
  origin_realm : Option String := none
  curse_level : Option ℚ := none
deriving DecidableEq, Repr

mutual
/-- `SpectralEvent` from `src/core/types.ts`: `type`, `source`,
`timestamp`, `data`, optional `metadata`. -/
inductive Event : Type where
  | mk (type : String) (source : String) (timestamp : Nat)
       (data : EvData) (metadata : Option Metadata)

/-- The `data` payloads the core constructs or carries.  Application
payloads are opaque (`user`); the diagnostic emitters build the object
shapes written in the source (`{ key, value }`, `{ originalEvent, error }`,
`{ pluginId, originalEvent, error }`, ...). -/
inductive EvData : Type where
  | user (payload : String)
  | stateChanged (key : String) (value : String)
  | subscriberError (originalEvent : Event) (error : String)
  | streamDisturbance (streamId : String) (error : String)
  | ghostlyCrash (context : String) (error : String)
  | manifestLoading (manifestPath : String) (pluginCount : Nat) (spookinessLevel : Option String)
  | pluginLoaded (pluginId : String) (pluginPath : String) (hauntProbability : Option ℚ)
  | pluginLoadFailed (pluginId : String) (error : String)
  | covenAssembled (totalPlugins : Nat) (loadedPlugins : Nat) (failedPlugins : Nat)
  | pluginProcessingError (pluginId : String) (originalEvent : Event) (error : String)
end
deriving instance DecidableEq for Event
deriving instance DecidableEq for EvData

namespace Event

/-- `event.type` -/
def type : Event → String
  | .mk t _ _ _ _ => t

/-- `event.source` -/
def source : Event → String
  | .mk _ s _ _ _ => s

/-- `event.timestamp` -/
def timestamp : Event → Nat
  | .mk _ _ ts _ _ => ts

/-- `event.data` -/
def data : Event → EvData
  | .mk _ _ _ d _ => d

/-- `event.metadata` -/
def metadata : Event → Option Metadata
  | .mk _ _ _ _ m => m

/-- Replace the metadata object of an event (the core freely reassigns
`event.metadata`). -/
def withMetadata : Event → Metadata → Event
  | .mk t s ts d _, m => .mk t s ts d (some m)

/-- Two events agree on every field the hub never touches
(`type`/`source`/`timestamp`/`data`); only `metadata` may differ.  This is
the sense in which a subscriber "observes e": `emit` stamps hub-managed
metadata onto the very object it was handed before delivery. -/
def coreSame (a b : Event) : Prop :=
  a.type = b.type ∧ a.source = b.source ∧ a.timestamp = b.timestamp ∧ a.data = b.data

instance : DecidableEq Event := inferInstance

instance coreSame.dec (a b : Event) : Decidable (coreSame a b) := by
  unfold coreSame; infer_instance

@[simp] theorem withMetadata_type (e : Event) (m : Metadata) : (e.withMetadata m).type = e.type := by
  cases e <;> rfl

@[simp] theorem withMetadata_source (e : Event) (m : Metadata) : (e.withMetadata m).source = e.source := by
  cases e <;> rfl

@[simp] theorem withMetadata_timestamp (e : Event) (m : Metadata) : (e.withMetadata m).timestamp = e.timestamp := by
  cases e <;> rfl

@[simp] theorem withMetadata_data (e : Event) (m : Metadata) : (e.withMetadata m).data = e.data := by
  cases e <;> rfl

@[simp] theorem withMetadata_metadata (e : Event) (m : Metadata) : (e.withMetadata m).metadata = some m := by
  cases e <;> rfl

theorem coreSame_refl (e : Event) : coreSame e e := ⟨rfl, rfl, rfl, rfl⟩

theorem coreSame_withMetadata (e : Event) (m : Metadata) : coreSame (e.withMetadata m) e := by
  cases e; exact ⟨rfl, rfl, rfl, rfl⟩

theorem coreSame_trans {a b c : Event} (h1 : coreSame a b) (h2 : coreSame b c) : coreSame a c := by
  obtain ⟨t1, s1, ts1, d1⟩ := h1
  obtain ⟨t2, s2, ts2, d2⟩ := h2
  exact ⟨t1.trans t2, s1.trans s2, ts1.trans ts2, d1.trans d2⟩

end Event

/-! ## EventHub (`src/core/eventHub.ts`), the multicast bus

`EventHub extends Subject<SpectralEvent>`.  An rxjs `Subject` keeps its
observers in subscription order and `next(event)` invokes each of them in
that order.  `EventHub.subscribe` wraps the raw observer in a try/catch
that converts a thrown exception into `handleSubscriberError`, which
re-enters `emit` with a `subscriber_error` diagnostic event.

A subscriber (the wrapped observer) is modelled by its fault behaviour:
`Event → Option String`, `none` meaning the callback returns normally and
`some msg` meaning it throws an `Error` with message `msg`.  What each
subscriber observes is recovered from the hub's delivery trace. -/

/-- JS `ToInt32` (the effect of `hash & hash` on a JS number). -/
def toInt32 (n : ℤ) : ℤ := ((n + 2 ^ 31) % 2 ^ 32) - 2 ^ 31

/-- `EventHub.simpleHash`: `hash = ((hash << 5) - hash) + char; hash = hash & hash`
folded over the characters, then `Math.abs`. -/
def simpleHash (s : String) : ℕ :=
  (s.data.foldl (fun h c => toInt32 (toInt32 (h * 32) - h + c.toNat)) 0).natAbs

mutual
/-- A printable stand-in for `JSON.stringify` on an event; only its use as
hash input matters, never its exact text. -/
def encodeEvent : Event → String
  | .mk t s ts d _ => "\x7b" ++ t ++ "," ++ s ++ "," ++ toString ts ++ "," ++ encodeEvData d ++ "\x7d"

/-- A printable stand-in for `JSON.stringify` on a `data` payload. -/
def encodeEvData : EvData → String
  | .user p => p
  | .stateChanged k v => "\x7bkey:" ++ k ++ ",value:" ++ v ++ "\x7d"
  | .subscriberError o e => "\x7boriginalEvent:" ++ encodeEvent o ++ ",error:" ++ e ++ "\x7d"
  | .streamDisturbance sid e => "\x7bstreamId:" ++ sid ++ ",error:" ++ e ++ "\x7d"
  | .ghostlyCrash c e => "\x7bcontext:" ++ c ++ ",error:" ++ e ++ "\x7d"
  | .manifestLoading p n lv =>
      "\x7bmanifestPath:" ++ p ++ ",pluginCount:" ++ toString n ++ "," ++ lv.getD "" ++ "\x7d"
  | .pluginLoaded i p q =>
      "\x7bpluginId:" ++ i ++ ",pluginPath:" ++ p ++ "," ++ toString (q.getD 0).num ++ "\x7d"
  | .pluginLoadFailed i e => "\x7bpluginId:" ++ i ++ ",error:" ++ e ++ "\x7d"
  | .covenAssembled a b c => "\x7b" ++ toString a ++ "," ++ toString b ++ "," ++ toString c ++ "\x7d"
  | .pluginProcessingError i o e =>
      "\x7bpluginId:" ++ i ++ ",originalEvent:" ++ encodeEvent o ++ ",error:" ++ e ++ "\x7d"
end

/-- `JSON.stringify({ type, data })` as hashed by
`generateSpectralSignature`. -/
def stringifyTypeData (type : String) (data : EvData) : String :=
  "\x7btype:" ++ type ++ ",data:" ++ encodeEvData data ++ "\x7d"

/-- `EventHub.generateSpectralSignature(type, data)`:
`spectral_` ++ hex of `simpleHash(JSON.stringify({type, data}))`. -/
def generateSpectralSignature (type : String) (data : EvData) : String :=
  "spectral_" ++ (Nat.toDigits 16 (simpleHash (stringifyTypeData type data))).asString

/-- A hub subscriber as registered by `EventHub.subscribe`: the observer
callback's fault behaviour (`none` = returns, `some msg` = throws). -/
def Subscriber : Type := Event → Option String

/-- Mutable state of one `EventHub` instance.  `delivered` is the trace of
observer invocations `(subscriber index, event delivered)`, in the order
they happen; it is how the model observes deliveries. -/
structure HubState where
  subs : List Subscriber
  spectralState : List (String × String) := []
  clock : Nat := 0
  eventCount : Nat := 0
  hauntLevel : ℚ := 0
  hauntedStreams : Nat := 0
  cursedKeys : List String := []
  delivered : List (Nat × Event) := []

/-- `EventHub.calculateHauntProbability`:
`min(0.5, 0.05 + hauntLevel * 0.2 + hauntedStreams.size * 0.01)`. -/
def calculateHauntProbability (st : HubState) : ℚ :=
  min (1/2) (5/100 + st.hauntLevel * (2/10) + st.hauntedStreams * (1/100))

/-- `EventHub.increaseHauntLevel`: `hauntLevel = min(1.0, hauntLevel + 0.1)`. -/
def increaseHauntLevel (h : ℚ) : ℚ := min 1 (h + 1/10)

/-- The metadata-stamping prefix of `EventHub.emit`: ensure `metadata`
exists, set `metadata.spectral_signature`, and—when the `Math.random()`
draw falls below the haunt probability—set `haunted`/`intensity` and bump
the haunt level.  `rand` is the oracle for `Math.random()`, indexed by the
value of `eventCount` at this call.  Returns the stamped event and the
updated haunt level. -/
def stampEmit (rand : Nat → ℚ) (st : HubState) (e : Event) : Event × ℚ :=
  let md0 := e.metadata.getD {}
  let md1 := { md0 with spectral_signature := some (generateSpectralSignature e.type e.data) }
  if rand st.eventCount < calculateHauntProbability st then
    (e.withMetadata { md1 with haunted := some true, intensity := some st.hauntLevel },
     increaseHauntLevel st.hauntLevel)
  else
    (e.withMetadata md1, st.hauntLevel)

/-- The `subscriber_error` diagnostic event built by
`EventHub.handleSubscriberError(error, event)`. -/
def subscriberErrorEvent (clock : Nat) (original : Event) (msg : String) : Event :=
  .mk "subscriber_error" "EventHub" clock (.subscriberError original msg)
    (some { haunted := some true, intensity := some (1/2) })

mutual
/-- `EventHub.emit(event)`: bump `eventCount`, stamp metadata, then
`this.next(event)` — deliver to every subscriber in subscription order.
`fuel` bounds the re-entrant `emit` depth caused by
`handleSubscriberError` (the real code would grow the JS call stack the
same way; fuel 0 models that unbounded regress, which no theorem relies
on). -/
def emitFuel (rand : Nat → ℚ) : Nat → HubState → Event → HubState
  | 0, st, _ => st
  | fuel + 1, st, e =>
    let st1 := { st with eventCount := st.eventCount + 1 }
    let p := stampEmit rand st1 e
    deliverFrom rand fuel p.1 { st1 with hauntLevel := p.2 } (List.range st1.subs.length)

/-- The delivery loop of `Subject.next` under `EventHub.subscribe`'s
wrapper: invoke subscriber `i`'s observer with `e` (recording it on the
trace); if the observer throws, `handleSubscriberError` re-enters `emit`
with a `subscriber_error` event; in either case continue with the
remaining subscribers. -/
def deliverFrom (rand : Nat → ℚ) : Nat → Event → HubState → List Nat → HubState
  | _, _, st, [] => st
  | fuel, e, st, i :: rest =>
    let st1 := { st with delivered := st.delivered ++ [(i, e)] }
    let st2 :=
      match st1.subs.get? i with
      | some handler =>
        match handler e with
        | some msg => emitFuel rand fuel st1 (subscriberErrorEvent st1.clock e msg)
        | none => st1
      | none => st1
    deliverFrom rand fuel e st2 rest
end

/-- What a subscription handle would be; `EventHub.subscribe` is declared
`(observer) => void`, so callers never receive one. -/
inductive SubscriptionHandle where
  | mk
deriving DecidableEq

/-- `EventHub.subscribe(observer)`: registers the wrapped observer on the
underlying `Subject` via `super.subscribe({...})` and returns `undefined`
(its declared return type is `void`; the `Subscription` produced by
`super.subscribe` is discarded).  The second component is the value a
caller's `const subscription = this.subscribe(...)` binds: always `none`. -/
def subscribe (st : HubState) (handler : Subscriber) : HubState × Option SubscriptionHandle :=
  ({ st with subs := st.subs ++ [handler] }, none)

/-- The cleanup step of `EventHub.spectralIterator`:
`subscription?.unsubscribe?.()` — optional chaining on the value returned
by `this.subscribe`, a no-op when that value is `undefined`. -/
def spectralIteratorCleanup (handle : Option SubscriptionHandle) (st : HubState) : HubState :=
  match handle with
  | none => st
  | some _ => st

/-- Update an association list in place (`Map.set`). -/
def setAssoc {α : Type} (l : List (String × α)) (k : String) (v : α) : List (String × α) :=
  match l with
  | [] => [(k, v)]
  | (k', v') :: rest => if k' = k then (k, v) :: rest else (k', v') :: setAssoc rest k v

/-- Association-list lookup (`Map.get`). -/
def getAssoc {α : Type} (l : List (String × α)) (k : String) : Option α :=
  match l with
  | [] => none
  | (k', v') :: rest => if k' = k then some v' else getAssoc rest k

/-- `EventHub.setState(key, value)`: write the keyed store (create the
`BehaviorSubject` on first write, `next` it otherwise — either way the
latest value becomes `value`), then `this.emit` a `state_changed` event
whose `data` is `{ key, value }`, `source` is `'EventHub'`, metadata
`haunted` reflecting `cursedKeys` plus a key/value signature (which
`emit` immediately re-stamps from `type`/`data`). -/
def setState (rand : Nat → ℚ) (fuel : Nat) (st : HubState) (key value : String) : HubState :=
  let st1 := { st with spectralState := setAssoc st.spectralState key value }
  emitFuel rand fuel st1
    (.mk "state_changed" "EventHub" st1.clock (.stateChanged key value)
      (some { haunted := some (st1.cursedKeys.contains key),
              spectral_signature := some (generateSpectralSignature key (.user value)) }))

/-- `EventHub.getState(key)`: synchronous read of the latest value. -/
def getState (st : HubState) (key : String) : Option String :=
  getAssoc st.spectralState key

/-- The events subscriber `i` has observed (its observer invocations), in
order, read off the delivery trace. -/
def observedBy (i : Nat) (st : HubState) : List Event :=
  st.delivered.filterMap (fun p => if p.1 = i then some p.2 else none)

/-- Emit a sequence of events (a caller's consecutive `emit` calls). -/
def emitSeq (rand : Nat → ℚ) (fuel : Nat) (st : HubState) (es : List Event) : HubState :=
  es.foldl (emitFuel rand fuel) st

/-! ### Structural lemmas about `emit` / delivery -/

/-- `emit` touches only counters, the haunt level and the delivery trace:
the subscriber list, the keyed store, the clock and the cursed keys are
untouched. -/
def FramePres (a b : HubState) : Prop :=
  a.subs = b.subs ∧ a.spectralState = b.spectralState ∧ a.clock = b.clock ∧
    a.cursedKeys = b.cursedKeys

theorem FramePres.refl (a : HubState) : FramePres a a := ⟨rfl, rfl, rfl, rfl⟩

theorem FramePres.trans {a b c : HubState} (h1 : FramePres a b) (h2 : FramePres b c) :
    FramePres a c := by
  obtain ⟨s1, p1, c1, k1⟩ := h1
  obtain ⟨s2, p2, c2, k2⟩ := h2
  exact ⟨s1.trans s2, p1.trans p2, c1.trans c2, k1.trans k2⟩

/-- Behaviour of `emitFuel` needed everywhere: frame preservation and an
append-only delivery trace. -/
def EmitSpecAt (rand : Nat → ℚ) (fuel : Nat) : Prop :=
  ∀ (st : HubState) (e : Event),
    FramePres (emitFuel rand fuel st e) st ∧
    ∃ ext, (emitFuel rand fuel st e).delivered = st.delivered ++ ext

/-- Behaviour of `deliverFrom`: frame preservation, append-only trace, and
delivery of `e` to every listed subscriber index. -/
def DeliverSpecAt (rand : Nat → ℚ) (fuel : Nat) : Prop :=
  ∀ (e : Event) (idxs : List Nat) (st : HubState),
    FramePres (deliverFrom rand fuel e st idxs) st ∧
    ∃ ext, (deliverFrom rand fuel e st idxs).delivered = st.delivered ++ ext ∧
      ∀ i ∈ idxs, (i, e) ∈ ext

theorem deliverSpec_of_emitSpec (rand : Nat → ℚ) (fuel : Nat)
    (hemit : EmitSpecAt rand fuel) : DeliverSpecAt rand fuel := by
  intro e idxs
  induction idxs with
  | nil =>
    intro st
    simp only [deliverFrom]
    exact ⟨FramePres.refl _, [], by simp, by simp⟩
  | cons i rest ih =>
    intro st
    rw [deliverFrom]
    set st1 : HubState := { st with delivered := st.delivered ++ [(i, e)] } with hst1
    have hframe1 : FramePres st1 st := ⟨rfl, rfl, rfl, rfl⟩
    -- the state after the (possibly re-entrant) handling of subscriber i
    set st2 : HubState :=
      (match st1.subs.get? i with
       | some handler =>
         match handler e with
         | some msg => emitFuel rand fuel st1 (subscriberErrorEvent st1.clock e msg)
         | none => st1
       | none => st1) with hst2
    have h2 : FramePres st2 st1 ∧ ∃ ext2, st2.delivered = st1.delivered ++ ext2 := by
      rw [hst2]
      split
      · split
        · exact ⟨(hemit st1 _).1, (hemit st1 _).2⟩
        · exact ⟨FramePres.refl _, [], by simp⟩
      · exact ⟨FramePres.refl _, [], by simp⟩
    obtain ⟨hframe2, ext2, hext2⟩ := h2
    obtain ⟨hframe3, ext3, hext3, hmem3⟩ := ih st2
    refine ⟨(hframe3.trans hframe2).trans hframe1, (i, e) :: (ext2 ++ ext3), ?_, ?_⟩
    · rw [hext3, hext2, hst1]
      simp
    · intro j hj
      rcases List.mem_cons.mp hj with h | h
      · subst h; exact List.mem_cons_self _ _
      · exact List.mem_cons_of_mem _ (List.mem_append_right _ (hmem3 j h))

/-- `emit` and the delivery loop preserve the frame and only append to the
trace, at every fuel. -/
theorem hubSpec (rand : Nat → ℚ) :
    ∀ fuel, EmitSpecAt rand fuel ∧ DeliverSpecAt rand fuel := by
  intro fuel
  induction fuel with
  | zero =>
    have he : EmitSpecAt rand 0 := by
      intro st e
      rw [emitFuel]
      exact ⟨FramePres.refl _, [], by simp⟩
    exact ⟨he, deliverSpec_of_emitSpec rand 0 he⟩
  | succ g ih =>
    have he : EmitSpecAt rand (g + 1) := by
      intro st e
      rw [emitFuel]
      obtain ⟨hframe, ext, hext, _⟩ :=
        ih.2 (stampEmit rand { st with eventCount := st.eventCount + 1 } e).1
          (List.range st.subs.length)
          { st with eventCount := st.eventCount + 1,
                    hauntLevel := (stampEmit rand { st with eventCount := st.eventCount + 1 } e).2 }
      exact ⟨hframe.trans ⟨rfl, rfl, rfl, rfl⟩, ext, hext⟩
    exact ⟨he, deliverSpec_of_emitSpec rand (g + 1) he⟩

theorem emitFuel_frame (rand : Nat → ℚ) (fuel : Nat) (st : HubState) (e : Event) :
    FramePres (emitFuel rand fuel st e) st :=
  ((hubSpec rand fuel).1 st e).1

theorem emitFuel_delivered_mono (rand : Nat → ℚ) (fuel : Nat) (st : HubState) (e : Event) :
    ∃ ext, (emitFuel rand fuel st e).delivered = st.delivered ++ ext :=
  ((hubSpec rand fuel).1 st e).2

/-- The stamped event `emit` actually hands to subscribers differs from the
argument only in metadata. -/
theorem stampEmit_coreSame (rand : Nat → ℚ) (st : HubState) (e : Event) :
    ((stampEmit rand st e).1).coreSame e := by
  unfold stampEmit
  split <;> exact Event.coreSame_withMetadata _ _

theorem stampEmit_type (rand : Nat → ℚ) (st : HubState) (e : Event) :
    ((stampEmit rand st e).1).type = e.type :=
  (stampEmit_coreSame rand st e).1

/-- Delivery loop when no listed subscriber throws on `e`: each listed
index just gets `e` appended to the trace, nothing else changes. -/
theorem deliverFrom_noThrow (rand : Nat → ℚ) (fuel : Nat) (e : Event) (idxs : List Nat) :
    ∀ (st : HubState),
      (∀ i ∈ idxs, ∀ hd, st.subs.get? i = some hd → hd e = none) →
      deliverFrom rand fuel e st idxs
        = { st with delivered := st.delivered ++ idxs.map (fun i => (i, e)) } := by
  induction idxs with
  | nil => intro st _; simp [deliverFrom]
  | cons i rest ih =>
    intro st hno
    rw [deliverFrom]
    have hself : ∀ hd, st.subs.get? i = some hd → hd e = none :=
      hno i (List.mem_cons_self _ _)
    set st1 : HubState := { st with delivered := st.delivered ++ [(i, e)] } with hst1
    have hsubs1 : st1.subs = st.subs := rfl
    have hstep :
        (match st1.subs.get? i with
         | some handler =>
           match handler e with
           | some msg => emitFuel rand fuel st1 (subscriberErrorEvent st1.clock e msg)
           | none => st1
         | none => st1) = st1 := by
      split
      · next handler heq =>
          split
          · next msg hmsg =>
              have hnone := hself handler (by rw [← hsubs1]; exact heq)
              rw [hnone] at hmsg
              exact absurd hmsg (by simp)
          · rfl
      · rfl
    rw [hstep, ih st1 (fun j hj hd hgd => hno j (List.mem_cons_of_mem _ hj) hd hgd)]
    simp [hst1]

/-- `emit` when no subscriber throws on (any metadata-variant of) `e`: the
event count bumps, the haunt level moves, and every subscriber receives the
stamped event, in subscription order. -/
theorem emitFuel_noThrow (rand : Nat → ℚ) (fuel : Nat) (st : HubState) (e : Event)
    (hno : ∀ hd ∈ st.subs, ∀ e', e'.coreSame e → hd e' = none) :
    ∃ e' h', e'.coreSame e ∧
      emitFuel rand (fuel + 1) st e
        = { st with eventCount := st.eventCount + 1, hauntLevel := h',
                    delivered := st.delivered ++ (List.range st.subs.length).map (fun i => (i, e')) } := by
  rw [emitFuel]
  set st1 : HubState := { st with eventCount := st.eventCount + 1 } with hst1
  set e' := (stampEmit rand st1 e).1 with he'
  set h' := (stampEmit rand st1 e).2 with hh'
  have hcore : e'.coreSame e := stampEmit_coreSame rand st1 e
  set st2 : HubState := { st1 with hauntLevel := h' } with hst2
  have hsubs2 : st2.subs = st.subs := rfl
  have hdel :=
    deliverFrom_noThrow rand fuel e' (List.range st1.subs.length) st2
      (by
        intro i _ hd hget
        exact hno hd (List.get?_mem (by rw [← hsubs2]; exact hget)) e' hcore)
  refine ⟨e', h', hcore, ?_⟩
  rw [hdel]

/-- Reading one subscriber's observations out of a full-fan-out block of
the trace: subscriber `i` sees the event exactly when `i` indexes a
subscriber. -/
theorem filterMap_pick_block (i n : Nat) (e : Event) :
    ((List.range n).map (fun j => (j, e))).filterMap
        (fun p => if p.1 = i then some p.2 else none)
      = if i < n then [e] else [] := by
  induction n with
  | zero => simp
  | succ m ihm =>
    rw [List.range_succ, List.map_append, List.filterMap_append, ihm]
    by_cases h1 : i < m
    · have hne : ¬ (m = i) := by omega
      have h2 : i < m + 1 := by omega
      simp [h1, h2, hne]
    · by_cases h2 : i = m
      · subst h2
        simp [h1]
      · have h3 : ¬ i < m + 1 := by omega
        have hne : ¬ (m = i) := fun h => h2 h.symm
        simp [h1, h3, hne]

/-- **C1.** For every sequence of `emit(e1), …, emit(en)` calls, every
subscriber registered before the first call observes exactly `e1 … en` in
that order (each `ei` up to the hub-managed metadata `emit` stamps on it),
and within one event the subscribers are notified in subscription order:
the delivery trace decomposes into one block per emitted event, in emit
order, each block running through the subscriber indices `0, 1, …` in
subscription order.  Hypothesis: no registered observer throws on the
emitted events (a throwing observer additionally receives `subscriber_error`
diagnostics, the subject of C2). -/
theorem c1_emit_delivery_order (rand : Nat → ℚ) (fuel : Nat) (st : HubState)
    (es : List Event)
    (hbenign : ∀ hd ∈ st.subs, ∀ e ∈ es, ∀ e', Event.coreSame e' e → hd e' = none) :
    ∃ obs : List Event,
      List.Forall₂ Event.coreSame obs es ∧
      (emitSeq rand (fuel + 1) st es).delivered
        = st.delivered
            ++ obs.flatMap (fun o => (List.range st.subs.length).map (fun i => (i, o))) ∧
      ∀ i < st.subs.length,
        observedBy i (emitSeq rand (fuel + 1) st es) = observedBy i st ++ obs := by
  induction es generalizing st with
  | nil =>
    exact ⟨[], List.Forall₂.nil, by simp [emitSeq], fun i _ => by simp [emitSeq]⟩
  | cons e rest ih =>
    obtain ⟨e1, h1, hc1, heq⟩ :=
      emitFuel_noThrow rand fuel st e
        (fun hd hmem e' hcs => hbenign hd hmem e (List.mem_cons_self _ _) e' hcs)
    have hstep : emitSeq rand (fuel + 1) st (e :: rest)
        = emitSeq rand (fuel + 1) (emitFuel rand (fuel + 1) st e) rest := rfl
    set st' := emitFuel rand (fuel + 1) st e with hst'
    have hsubs' : st'.subs = st.subs := by rw [heq]
    have hdel' : st'.delivered
        = st.delivered ++ (List.range st.subs.length).map (fun i => (i, e1)) := by
      rw [heq]
    obtain ⟨obs', hfa', hdelF, hobsF⟩ :=
      ih st' (by
        intro hd hmem e2 hm2 e' hcs
        rw [hsubs'] at hmem
        exact hbenign hd hmem e2 (List.mem_cons_of_mem _ hm2) e' hcs)
    refine ⟨e1 :: obs', List.Forall₂.cons hc1 hfa', ?_, ?_⟩
    · rw [hstep, hdelF, hdel', hsubs']
      simp [List.append_assoc]
    · intro i hi
      rw [hstep, hobsF i (by rw [hsubs']; exact hi)]
      unfold observedBy
      rw [hdel', List.filterMap_append, filterMap_pick_block, if_pos hi]
      simp

/-- If some subscriber in the list throws on `e`, the re-entrant
`handleSubscriberError`/`emit` delivers a `subscriber_error` diagnostic —
carrying `e` as `originalEvent` — to every subscriber (provided, as in any
terminating run of the code, that no observer throws on `subscriber_error`
events themselves). -/
theorem deliverFrom_throw_fanout (rand : Nat → ℚ) (g : Nat) (e : Event) (idxs : List Nat)
    (k : Nat) (hdk : Subscriber) :
    ∀ (st : HubState),
      k ∈ idxs →
      st.subs.get? k = some hdk →
      hdk e ≠ none →
      (∀ hd ∈ st.subs, ∀ ev : Event, ev.type = "subscriber_error" → hd ev = none) →
      ∃ ext, (deliverFrom rand (g + 1) e st idxs).delivered = st.delivered ++ ext ∧
        ∀ j < st.subs.length, ∃ d m,
          (j, d) ∈ ext ∧
          d.type = "subscriber_error" ∧ d.source = "EventHub" ∧
          d.data = .subscriberError e m := by
  induction idxs with
  | nil => intro st hk; exact absurd hk (List.not_mem_nil k)
  | cons i rest ih =>
    intro st hk hget hthrow hno
    rw [deliverFrom]
    set st1 : HubState := { st with delivered := st.delivered ++ [(i, e)] } with hst1
    have hsubs1 : st1.subs = st.subs := rfl
    rcases List.mem_cons.mp hk with hik | hkr
    · -- this is the throwing subscriber: the nested emit happens now
      cases hmsg : hdk e with
      | none => exact absurd hmsg hthrow
      | some msg =>
        have hget1 : st1.subs.get? i = some hdk := by rw [← hik]; exact hget
        simp only [hget1, hmsg]
        obtain ⟨d, h', hcore, heq⟩ :=
          emitFuel_noThrow rand g st1 (subscriberErrorEvent st1.clock e msg)
            (by
              intro hd hmem e' hcs
              exact hno hd hmem e' hcs.1)
        rw [heq]
        obtain ⟨_, ext3, hext3, _⟩ :=
          (hubSpec rand (g + 1)).2 e rest
            { st1 with eventCount := st1.eventCount + 1, hauntLevel := h',
                       delivered := st1.delivered
                         ++ (List.range st1.subs.length).map (fun i => (i, d)) }
        rw [hext3]
        refine ⟨(i, e) :: ((List.range st1.subs.length).map (fun i => (i, d)) ++ ext3),
          by simp [hst1], ?_⟩
        intro j hj
        refine ⟨d, msg, ?_, hcore.1, hcore.2.1, hcore.2.2.2⟩
        refine List.mem_cons_of_mem _ (List.mem_append_left _ ?_)
        exact List.mem_map.mpr ⟨j, List.mem_range.mpr hj, rfl⟩
    · -- the throwing subscriber is later in the list: recurse
      have hstep : ∀ st2 : HubState, st2.subs = st.subs →
          st2.delivered = st1.delivered ++ (st2.delivered.drop st1.delivered.length) →
          (∃ ext, (deliverFrom rand (g + 1) e st2 rest).delivered = st.delivered ++ ext ∧
            ∀ j < st.subs.length, ∃ d m, (j, d) ∈ ext ∧
              d.type = "subscriber_error" ∧ d.source = "EventHub" ∧
              d.data = .subscriberError e m) := by
        intro st2 hsubs2 hdrop
        obtain ⟨ext3, hext3, hmem3⟩ :=
          ih st2 hkr (by rw [hsubs2]; exact hget) hthrow (by rw [hsubs2]; exact hno)
        refine ⟨(i, e) :: (st2.delivered.drop st1.delivered.length ++ ext3), ?_, ?_⟩
        · rw [hext3, hdrop, hst1]
          simp
        · intro j hj
          obtain ⟨d, m, hmem, hty, hsrc, hdata⟩ := hmem3 j (by rw [hsubs2]; exact hj)
          exact ⟨d, m, List.mem_cons_of_mem _ (List.mem_append_right _ hmem), hty, hsrc, hdata⟩
      split
      · split
        · next msg hmsg =>
            rename_i handler heqh
            obtain ⟨_, ext2, hext2⟩ := (hubSpec rand (g + 1)).1 st1 _
            refine hstep _ (((hubSpec rand (g + 1)).1 st1 _).1.1.trans hsubs1) ?_
            rw [hext2]
            simp
        · exact hstep st1 hsubs1 (by simp)
      · exact hstep st1 hsubs1 (by simp)

/-- **C2.** If a subscribed observer throws while handling an emitted
event `e`, then: the subscriber list is untouched (the throwing
subscription stays alive); every observer — the throwing one included —
still receives `e` during this emission; a `subscriber_error` diagnostic
event carrying `e` as its `originalEvent` is emitted and delivered to
every subscriber, instead of the hub crashing; and any subsequently
emitted event is again delivered to every subscriber, the failing one
included.  Hypothesis `hno_onerr` rules out observers that throw on the
`subscriber_error` diagnostics themselves, under which the real code would
recurse without bound. -/
theorem c2_subscriber_isolation (rand : Nat → ℚ) (F G : Nat) (st : HubState) (e : Event)
    (k : Nat) (hdk : Subscriber)
    (hget : st.subs.get? k = some hdk)
    (hthrow : ∀ e', e'.coreSame e → hdk e' ≠ none)
    (hno_onerr : ∀ hd ∈ st.subs, ∀ ev : Event, ev.type = "subscriber_error" → hd ev = none) :
    (emitFuel rand (F + 2) st e).subs = st.subs ∧
    (∃ ext, (emitFuel rand (F + 2) st e).delivered = st.delivered ++ ext ∧
      ∀ j < st.subs.length,
        (∃ d, (j, d) ∈ ext ∧ d.coreSame e) ∧
        (∃ d m orig, (j, d) ∈ ext ∧ d.type = "subscriber_error" ∧ d.source = "EventHub" ∧
          d.data = .subscriberError orig m ∧ orig.coreSame e)) ∧
    (∀ e2, (∀ hd ∈ st.subs, ∀ e', e'.coreSame e2 → hd e' = none) →
      ∀ j < st.subs.length, ∃ d, d.coreSame e2 ∧
        observedBy j (emitFuel rand (G + 1) (emitFuel rand (F + 2) st e) e2)
          = observedBy j (emitFuel rand (F + 2) st e) ++ [d]) := by
  have hsubs' : (emitFuel rand (F + 2) st e).subs = st.subs :=
    (emitFuel_frame rand (F + 2) st e).1
  refine ⟨hsubs', ?_, ?_⟩
  · -- deliveries during the emission of e
    rw [emitFuel]
    set st1 : HubState := { st with eventCount := st.eventCount + 1 } with hst1
    set e' := (stampEmit rand st1 e).1 with he'
    set st2 : HubState := { st1 with hauntLevel := (stampEmit rand st1 e).2 } with hst2
    have hsubs2 : st2.subs = st.subs := rfl
    have hcore : e'.coreSame e := stampEmit_coreSame rand st1 e
    have hkn : k < st.subs.length := by
      rcases List.get?_eq_some.mp hget with ⟨h, _⟩
      exact h
    obtain ⟨_, exta, hexta, hmema⟩ :=
      (hubSpec rand (F + 1)).2 e' (List.range st1.subs.length) st2
    obtain ⟨extb, hextb, hmemb⟩ :=
      deliverFrom_throw_fanout rand F e' (List.range st1.subs.length) k hdk st2
        (List.mem_range.mpr hkn) hget (hthrow e' hcore) hno_onerr
    have hexteq : exta = extb := by
      have := hexta.symm.trans hextb
      exact List.append_cancel_left this
    refine ⟨exta, hexta, ?_⟩
    intro j hj
    constructor
    · exact ⟨e', hmema j (List.mem_range.mpr hj), hcore⟩
    · obtain ⟨d, m, hmem, hty, hsrc, hdata⟩ := hmemb j hj
      exact ⟨d, m, e', hexteq ▸ hmem, hty, hsrc, hdata, hcore⟩
  · -- subsequent events reach everyone, the thrower included
    intro e2 hno2 j hj
    set st' := emitFuel rand (F + 2) st e with hst'
    obtain ⟨d, h', hcore2, heq2⟩ :=
      emitFuel_noThrow rand G st' e2
        (by
          intro hd hmem e'' hcs
          rw [hsubs'] at hmem
          exact hno2 hd hmem e'' hcs)
    refine ⟨d, hcore2, ?_⟩
    unfold observedBy
    rw [heq2]
    simp only
    rw [List.filterMap_append, filterMap_pick_block, hsubs', if_pos hj]

/-- **C9.** `setState(key, value)` updates the keyed store and, besides
notifying that key's observers, emits a `state_changed` event — `type`
`'state_changed'`, `source` `'EventHub'`, `data` carrying the key and the
value — which is delivered to every hub subscriber. -/
theorem c9_setState_emits_state_changed (rand : Nat → ℚ) (F : Nat) (st : HubState)
    (key value : String) :
    (setState rand (F + 1) st key value).spectralState
      = setAssoc st.spectralState key value ∧
    ∃ ext, (setState rand (F + 1) st key value).delivered = st.delivered ++ ext ∧
      ∀ j < st.subs.length, ∃ d, (j, d) ∈ ext ∧
        d.type = "state_changed" ∧ d.source = "EventHub" ∧
        d.data = .stateChanged key value := by
  unfold setState
  set st1 : HubState := { st with spectralState := setAssoc st.spectralState key value }
    with hst1
  set ev0 : Event :=
    .mk "state_changed" "EventHub" st1.clock (.stateChanged key value)
      (some { haunted := some (st1.cursedKeys.contains key),
              spectral_signature := some (generateSpectralSignature key (.user value)) })
    with hev0
  constructor
  · have hframe := emitFuel_frame rand (F + 1) st1 ev0
    rw [hframe.2.1]
  · rw [emitFuel]
    set st2 : HubState := { st1 with eventCount := st1.eventCount + 1 } with hst2
    set e' := (stampEmit rand st2 ev0).1 with he'
    have hcore : e'.coreSame ev0 := stampEmit_coreSame rand st2 ev0
    obtain ⟨_, ext, hext, hmem⟩ :=
      (hubSpec rand F).2 e' (List.range st2.subs.length)
        { st2 with hauntLevel := (stampEmit rand st2 ev0).2 }
    refine ⟨ext, hext, ?_⟩
    intro j hj
    refine ⟨e', hmem j (List.mem_range.mpr hj), hcore.1, hcore.2.1, hcore.2.2.2⟩

/-- **C6 (code evaluation).** `EventHub.subscribe(observer)` registers the
wrapped observer but returns `undefined` — its declared return type is
`void` and the `Subscription` produced by `super.subscribe` is discarded —
so a caller holds no subscription object, and the cleanup step of
`spectralIterator` (`subscription?.unsubscribe?.()`) leaves the hub state
unchanged: the observer stays registered and keeps receiving events. -/
theorem c6_subscribe_returns_no_handle (st : HubState) (handler : Subscriber) :
    (subscribe st handler).2 = none ∧
    spectralIteratorCleanup (subscribe st handler).2 (subscribe st handler).1
      = (subscribe st handler).1 ∧
    ((subscribe st handler).1).subs = st.subs ++ [handler] :=
  ⟨rfl, rfl, rfl⟩

/-! ### Concrete fixtures for witnesses -/

/-- A `Math.random()` oracle that always draws 1 (no haunt injection ever
fires; `calculateHauntProbability` is capped at 0.5). -/
def wRand : Nat → ℚ := fun _ => 1

/-- A plain application event. -/
def wEvent (p : String) : Event := .mk "user_message" "client" 5 (.user p) none

/-- An observer that never throws. -/
def wBenign : Subscriber := fun _ => none

/-- An observer that throws exactly on `user_message` events. -/
def wThrowing : Subscriber := fun ev => if ev.type = "user_message" then some "boom" else none

/-- A hub with two well-behaved subscribers. -/
def c1State : HubState := { subs := [wBenign, wBenign] }

/-- A hub whose first subscriber throws on `user_message` events. -/
def c2State : HubState := { subs := [wThrowing, wBenign] }

theorem c1_witness :
    ∃ obs : List Event,
      List.Forall₂ Event.coreSame obs [wEvent "a", wEvent "b"] ∧
      (emitSeq wRand 1 c1State [wEvent "a", wEvent "b"]).delivered
        = c1State.delivered
            ++ obs.flatMap (fun o => (List.range c1State.subs.length).map (fun i => (i, o))) ∧
      ∀ i < c1State.subs.length,
        observedBy i (emitSeq wRand 1 c1State [wEvent "a", wEvent "b"])
          = observedBy i c1State ++ obs := by
  refine c1_emit_delivery_order wRand 0 c1State [wEvent "a", wEvent "b"] ?_
  intro hd hmem e _ e' _
  rcases List.mem_cons.mp hmem with h | h
  · rw [h]; rfl
  · rcases List.mem_cons.mp h with h2 | h2
    · rw [h2]; rfl
    · exact absurd h2 (List.not_mem_nil hd)

theorem c2_witness :
    (emitFuel wRand 2 c2State (wEvent "boo")).subs = c2State.subs ∧
    ∃ ext, (emitFuel wRand 2 c2State (wEvent "boo")).delivered = c2State.delivered ++ ext ∧
      (∃ d, (1, d) ∈ ext ∧ d.coreSame (wEvent "boo")) ∧
      (∃ d m orig, (0, d) ∈ ext ∧ d.type = "subscriber_error" ∧ d.source = "EventHub" ∧
        d.data = .subscriberError orig m ∧ orig.coreSame (wEvent "boo")) := by
  have h := c2_subscriber_isolation wRand 0 0 c2State (wEvent "boo") 0 wThrowing rfl
    (by
      intro e' hc
      have ht : e'.type = "user_message" := hc.1
      simp [wThrowing, ht])
    (by
      intro hd hmem ev hty
      rcases List.mem_cons.mp hmem with h | h
      · rw [h]; simp [wThrowing, hty]
      · rcases List.mem_cons.mp h with h2 | h2
        · rw [h2]; rfl
        · exact absurd h2 (List.not_mem_nil hd))
  obtain ⟨h1, ⟨ext, hext, hmem⟩, _⟩ := h
  exact ⟨h1, ext, hext, (hmem 1 (by simp [c2State])).1, (hmem 0 (by simp [c2State])).2⟩

/-! ## PluginLoader (`src/core/loader.ts`)

A live `IPlugin` instance is modelled by its observable behaviour: its
reported `id`, what `process(event)` does (the finite trace of the
`Observable` it returns, or a synchronous throw), whether `init(hub)`
resolves or rejects, whether the optional `haunt` hook exists and with
which manifest-configured probability, and whether `teardown()` throws. -/

/-- Result of invoking a plugin's `process(event)`:  either the call
itself throws synchronously, or it returns an observable producing `outs`
and then erroring with `err` (if set). -/
inductive ProcResult where
  | throws (msg : String)
  | stream (outs : List Event) (err : Option String)

/-- Behavioural model of a live plugin instance (`IPlugin`). -/
structure MPlugin where
  id : String
  process : Event → ProcResult := fun _ => .stream [] none
  initThrows : Option String := none
  hasHaunt : Bool := false
  hauntProb : ℚ := 0
  teardownThrows : Option String := none

/-! ### `setupPluginEventRouting` (C3, C7)

The routing callback subscribed once on the hub: for each event, iterate
the `plugins` map passed to `setupPluginEventRouting`; skip the plugin
whose id equals `event.source`; call `plugin.process(event)`; re-emit each
produced event with `processed_by` / `original_source` stamped into its
metadata; convert an observable error into a `plugin_processing_error`
diagnostic; a synchronous throw from `process` is caught and only logged. -/

/-- The plugin ids whose `process` hook one routing pass invokes. -/
def routeInvoked (plugins : List (String × MPlugin)) (e : Event) : List String :=
  (plugins.filter (fun p => p.1 ≠ e.source)).map Prod.fst

/-- The routing-provenance stamp:
`processedEvent.metadata = { ...processedEvent.metadata, processed_by, original_source }`. -/
def stampRouting (pid src : String) (ev : Event) : Event :=
  ev.withMetadata
    { ev.metadata.getD {} with processed_by := some pid, original_source := some src }

/-- The `plugin_processing_error` diagnostic event built in the routing
subscription's error callback. -/
def pluginProcessingErrorEvent (clock : Nat) (pid : String) (original : Event)
    (msg : String) : Event :=
  .mk "plugin_processing_error" "PluginLoader" clock
    (.pluginProcessingError pid original msg)
    (some { haunted := some true, intensity := some (6/10) })

/-- What one plugin entry contributes to the events the routing pass hands
to `hub.emit`. -/
def routeStep (clock : Nat) (e : Event) (entry : String × MPlugin) : List Event :=
  if entry.1 = e.source then []
  else
    match entry.2.process e with
    | .throws _ => []
    | .stream outs err =>
        outs.map (stampRouting entry.1 e.source) ++
          (match err with
           | some m => [pluginProcessingErrorEvent clock entry.1 e m]
           | none => [])

/-- All events one routing pass hands to `hub.emit`, in iteration order. -/
def routeEmissions (clock : Nat) (plugins : List (String × MPlugin)) (e : Event) :
    List Event :=
  plugins.flatMap (routeStep clock e)

/-- **C3.** In a routing pass over the plugin map for an event `e`:
a plugin's `process` hook is invoked exactly when its id differs from
`e.source` (an event whose source equals the plugin's id is never passed
to it, every other loaded plugin receives it); and every output event a
`process` hook produces is re-emitted on the hub with metadata
`processed_by` set to that plugin's id and `original_source` set to the
incoming event's source. -/
theorem c3_routing_self_exclusion (plugins : List (String × MPlugin)) (clock : Nat)
    (e : Event) :
    (∀ pid, pid ∈ routeInvoked plugins e ↔ (pid ∈ plugins.map Prod.fst ∧ pid ≠ e.source)) ∧
    (∀ pid P, (pid, P) ∈ plugins → pid ≠ e.source →
      ∀ outs err, P.process e = .stream outs err →
        ∀ o ∈ outs,
          stampRouting pid e.source o ∈ routeEmissions clock plugins e ∧
          (stampRouting pid e.source o).metadata
            = some { (o.metadata.getD {}) with
                       processed_by := some pid, original_source := some e.source }) := by
  constructor
  · intro pid
    constructor
    · intro hmem
      obtain ⟨p, hp, hfst⟩ := List.mem_map.mp hmem
      obtain ⟨hpl, hne⟩ := List.mem_filter.mp hp
      subst hfst
      refine ⟨List.mem_map.mpr ⟨p, hpl, rfl⟩, by simpa using hne⟩
    · rintro ⟨hmem, hne⟩
      obtain ⟨p, hp, hfst⟩ := List.mem_map.mp hmem
      subst hfst
      exact List.mem_map.mpr ⟨p, List.mem_filter.mpr ⟨hp, by simpa using hne⟩, rfl⟩
  · intro pid P hmem hne outs err hproc o ho
    constructor
    · refine List.mem_flatMap.mpr ⟨(pid, P), hmem, ?_⟩
      unfold routeStep
      rw [if_neg hne, hproc]
      exact List.mem_append_left _ (List.mem_map.mpr ⟨o, ho, rfl⟩)
    · unfold stampRouting
      rw [Event.withMetadata_metadata]

/-- Routing fixtures: a plugin that echoes one fixed output event. -/
def c3Out : Event := .mk "spectral_echo" "echo_haunt" 7 (.user "boo") none

/-- A plugin producing `c3Out` on every input. -/
def c3Plugin (pid : String) : MPlugin :=
  { id := pid, process := fun _ => .stream [c3Out] none }

/-- Two loaded plugins, `alpha` and `beta`. -/
def c3Plugins : List (String × MPlugin) := [("alpha", c3Plugin "alpha"), ("beta", c3Plugin "beta")]

/-- An event sourced by plugin `alpha`. -/
def c3Event : Event := .mk "user_message" "alpha" 3 (.user "hi") none

theorem c3_witness :
    "alpha" ∉ routeInvoked c3Plugins c3Event ∧
    "beta" ∈ routeInvoked c3Plugins c3Event ∧
    stampRouting "beta" "alpha" c3Out ∈ routeEmissions 0 c3Plugins c3Event ∧
    (stampRouting "beta" "alpha" c3Out).metadata
      = some { (c3Out.metadata.getD {}) with
                 processed_by := some "beta", original_source := some "alpha" } := by
  have h := c3_routing_self_exclusion c3Plugins 0 c3Event
  have hmem : ("beta", c3Plugin "beta") ∈ c3Plugins :=
    List.mem_cons_of_mem _ (List.mem_cons_self _ _)
  have hout := h.2 "beta" (c3Plugin "beta") hmem (by decide) [c3Out] none rfl c3Out
    (List.mem_cons_self _ _)
  refine ⟨?_, ?_, hout.1, hout.2⟩
  · intro hbad
    exact ((h.1 "alpha").mp hbad).2 rfl
  · exact (h.1 "beta").mpr ⟨List.mem_map.mpr ⟨("beta", c3Plugin "beta"), hmem, rfl⟩, by decide⟩

/-! ### Loader bookkeeping and `teardownPlugin` (C10, C7) -/

/-- Delete a key from an association map (`Map.delete`). -/
def delAssoc {α : Type} (l : List (String × α)) (k : String) : List (String × α) :=
  match l with
  | [] => []
  | (k', v) :: rest => if k' = k then delAssoc rest k else (k', v) :: delAssoc rest k

theorem getAssoc_setAssoc_self {α : Type} (l : List (String × α)) (k : String) (v : α) :
    getAssoc (setAssoc l k v) k = some v := by
  induction l with
  | nil => simp [setAssoc, getAssoc]
  | cons p rest ih =>
    by_cases h : p.1 = k
    · simp [setAssoc, getAssoc, h]
    · simp [setAssoc, getAssoc, h, ih]

theorem getAssoc_setAssoc_ne {α : Type} (l : List (String × α)) (k k' : String) (v : α)
    (h : k' ≠ k) : getAssoc (setAssoc l k v) k' = getAssoc l k' := by
  induction l with
  | nil => simp [setAssoc, getAssoc, Ne.symm h]
  | cons p rest ih =>
    by_cases hp : p.1 = k
    · simp [setAssoc, getAssoc, hp, Ne.symm h]
    · simp only [setAssoc, if_neg hp, getAssoc]
      by_cases hp' : p.1 = k'
      · simp [hp']
      · simp [hp', ih]

theorem getAssoc_delAssoc_ne {α : Type} (l : List (String × α)) (k k' : String)
    (h : k' ≠ k) : getAssoc (delAssoc l k) k' = getAssoc l k' := by
  induction l with
  | nil => rfl
  | cons p rest ih =>
    rcases p with ⟨pk, pv⟩
    by_cases hp : pk = k
    · have hne : ¬ pk = k' := by rw [hp]; exact Ne.symm h
      simp [delAssoc, getAssoc, hp, hne, Ne.symm h, ih]
    · by_cases hp' : pk = k'
      · simp [delAssoc, getAssoc, hp, hp', h]
      · simp [delAssoc, getAssoc, hp, hp', ih]

theorem getAssoc_delAssoc_self {α : Type} (l : List (String × α)) (k : String) :
    getAssoc (delAssoc l k) k = none := by
  induction l with
  | nil => rfl
  | cons p rest ih =>
    rcases p with ⟨pk, pv⟩
    by_cases h : pk = k
    · simpa [delAssoc, getAssoc, h] using ih
    · simpa [delAssoc, getAssoc, h] using ih

/-- State owned by one `PluginLoader` instance:
`loadedPlugins`, `pluginStates`, `retryAttempts`. -/
structure LoaderState where
  loadedPlugins : List (String × MPlugin) := []
  pluginStates : List (String × PluginState) := []
  retryAttempts : List (String × Nat) := []

/-- Errors surfacing from `teardownPlugin`: the plain
`Error("Plugin '<id>' not found")` for a missing plugin, or the
`SpectralError` produced by `createSpectralError`. -/
inductive TeardownError where
  | notFound (pluginId : String)
  | spectral (type : SpectralErrorType) (message : String)
deriving DecidableEq

/-- `PluginLoader.teardownPlugin(pluginId)`: look the plugin up; set its
state to `BANISHED`; call `plugin.teardown()`; on success delete the
plugin instance, its state entry and its retry counter; a throw from
`teardown()` is re-thrown as a `BANISHMENT_REQUIRED` spectral error, with
the deletions skipped (the mutation already performed stays). -/
def teardownPlugin (st : LoaderState) (pid : String) : LoaderState × Option TeardownError :=
  match getAssoc st.loadedPlugins pid with
  | none => (st, some (.notFound pid))
  | some plugin =>
    let st1 : LoaderState := { st with pluginStates := setAssoc st.pluginStates pid .banished }
    match plugin.teardownThrows with
    | some msg =>
      (st1, some (.spectral .banishmentRequired
        ("Failed to teardown plugin '" ++ pid ++ "': " ++ msg)))
    | none =>
      ({ st1 with loadedPlugins := delAssoc st1.loadedPlugins pid,
                  pluginStates := delAssoc st1.pluginStates pid,
                  retryAttempts := delAssoc st1.retryAttempts pid }, none)

/-- **C10.** If a plugin's `teardown` hook throws, `teardownPlugin`
surfaces a `BanishmentRequired` error with the plugin's lifecycle state
already set to `banished`, and the plugin instance, its state entry and
its retry counter all remain in the loader's bookkeeping; when the hook
returns normally, all three are removed and no error is raised. -/
theorem c10_teardown_banishment (st : LoaderState) (pid : String) (P : MPlugin)
    (hload : getAssoc st.loadedPlugins pid = some P) :
    (∀ msg, P.teardownThrows = some msg →
      (teardownPlugin st pid).2
          = some (.spectral .banishmentRequired
              ("Failed to teardown plugin '" ++ pid ++ "': " ++ msg)) ∧
      getAssoc (teardownPlugin st pid).1.pluginStates pid = some .banished ∧
      getAssoc (teardownPlugin st pid).1.loadedPlugins pid = some P ∧
      (teardownPlugin st pid).1.retryAttempts = st.retryAttempts) ∧
    (P.teardownThrows = none →
      (teardownPlugin st pid).2 = none ∧
      getAssoc (teardownPlugin st pid).1.loadedPlugins pid = none ∧
      getAssoc (teardownPlugin st pid).1.pluginStates pid = none ∧
      getAssoc (teardownPlugin st pid).1.retryAttempts pid = none) := by
  unfold teardownPlugin
  constructor
  · intro msg hthrow
    simp [hload, hthrow, getAssoc_setAssoc_self]
  · intro hok
    simp [hload, hok, getAssoc_delAssoc_self]

/-- Fixture: a loader holding one plugin whose `teardown` throws and one
whose `teardown` succeeds. -/
def c10State : LoaderState :=
  { loadedPlugins :=
      [("cursed", { id := "cursed", teardownThrows := some "ectoplasm leak" }),
       ("tame", { id := "tame" })],
    pluginStates := [("cursed", .active), ("tame", .active)],
    retryAttempts := [("cursed", 1)] }

theorem c10_witness :
    (teardownPlugin c10State "cursed").2
        = some (.spectral .banishmentRequired
            "Failed to teardown plugin 'cursed': ectoplasm leak") ∧
    getAssoc (teardownPlugin c10State "cursed").1.pluginStates "cursed" = some .banished ∧
    (teardownPlugin c10State "cursed").1.retryAttempts = c10State.retryAttempts ∧
    (teardownPlugin c10State "tame").2 = none ∧
    getAssoc (teardownPlugin c10State "tame").1.loadedPlugins "tame" = none := by
  have h1 := c10_teardown_banishment c10State "cursed"
    { id := "cursed", teardownThrows := some "ectoplasm leak" } rfl
  have h2 := c10_teardown_banishment c10State "tame" { id := "tame" } rfl
  obtain ⟨he, hs, _, hr⟩ := h1.1 "ectoplasm leak" rfl
  obtain ⟨he2, hl2, _, _⟩ := h2.2 rfl
  exact ⟨he, hs, hr, he2, hl2⟩

/-! ### C7 — what the routing pass actually iterates

`src/app.ts` wires routing as
`const plugins = await this.pluginLoader.loadAllPlugins(...);`
`this.pluginLoader.setupPluginEventRouting(plugins, this.eventHub);` —
the map handed to the routing closure is the map `loadAllPlugins`
returned (a map built locally inside that call), not the loader's private
`loadedPlugins`.  `teardownPlugin` mutates only the loader's own maps, so
no code path mutates the routing map after setup. -/

/-- The loader plus the plugin map captured by the routing closure at
`setupPluginEventRouting` time. -/
structure SystemState where
  loader : LoaderState
  routingMap : List (String × MPlugin)

/-- `teardownPlugin` as it acts on the whole system: it touches the
loader's bookkeeping only; the routing closure's captured map is not a
reference into the loader. -/
def sysTeardown (sys : SystemState) (pid : String) : SystemState × Option TeardownError :=
  ((fun p => ({ sys with loader := p.1 }, p.2)) (teardownPlugin sys.loader pid))

/-- Modelled from the spec's words, for comparison (claim C7): a routing
pass that iterates "a snapshot of the plugin list taken at the start of
that pass" would invoke the plugins currently loaded in the loader at the
moment the event is routed. -/
def routeInvokedSnapshotSemantics (sys : SystemState) (e : Event) : List String :=
  routeInvoked sys.loader.loadedPlugins e

/-- **C7 (amended).** The routing subscription iterates the plugin map
fixed when `setupPluginEventRouting` was called; `teardownPlugin` — in
particular a plugin unloading itself mid-routing-pass — never changes that
map, so neither the plugins a pass invokes nor the events it re-emits are
affected by loader-side removal (before, during or after the pass).  The
flip side, refuting the per-pass-snapshot reading, is `c7_counterexample`. -/
theorem c7_routing_map_fixed_at_setup (sys : SystemState) (pid : String) (e : Event)
    (clock : Nat) :
    (sysTeardown sys pid).1.routingMap = sys.routingMap ∧
    routeInvoked (sysTeardown sys pid).1.routingMap e = routeInvoked sys.routingMap e ∧
    routeEmissions clock (sysTeardown sys pid).1.routingMap e
      = routeEmissions clock sys.routingMap e :=
  ⟨rfl, rfl, rfl⟩

/-- Two plugins loaded and routed. -/
def c7Sys : SystemState :=
  { loader :=
      { loadedPlugins := [("A", c3Plugin "A"), ("B", c3Plugin "B")],
        pluginStates := [("A", .active), ("B", .active)] },
    routingMap := [("A", c3Plugin "A"), ("B", c3Plugin "B")] }

/-- An externally-sourced event. -/
def c7Event : Event := .mk "tick" "ext" 0 (.user "x") none

/-- **C7 (counterexample).** After plugin `A` is torn down, a routing pass
still invokes `A` — the pass iterates the setup-time map, not a snapshot
of the loader's plugin list taken at the start of the pass, which would
invoke only `B`. -/
theorem c7_counterexample :
    routeInvoked (sysTeardown c7Sys "A").1.routingMap c7Event
      ≠ routeInvokedSnapshotSemantics (sysTeardown c7Sys "A").1 c7Event ∧
    routeInvoked (sysTeardown c7Sys "A").1.routingMap c7Event = ["A", "B"] ∧
    routeInvokedSnapshotSemantics (sysTeardown c7Sys "A").1 c7Event = ["B"] := by
  refine ⟨?_, rfl, rfl⟩
  intro h
  exact absurd h (by decide)

/-! ### Loading plugins (C5)

`loadPlugin` resolves and imports the descriptor's module and instantiates
the named class — I/O modelled by the oracle
`inst : String → Nat → Except String MPlugin`, giving the outcome of the
import/instantiate steps for a plugin id at a given attempt number (the
value of the loader's retry counter at the call).  `validatePlugin`'s
structural checks (required methods/properties) always pass in this typed
model; its id-match check is explicit. -/

/-- A `SpectralError` as built by `PluginLoader.createSpectralError`
(kind and message; timestamps/haunt levels carried by the JS object do not
matter to any claim). -/
structure SError where
  type : SpectralErrorType
  message : String
deriving DecidableEq

/-- Manifest entry (`PluginConfig`). -/
structure PluginConfig where
  id : String
  path : String
  className : String
  haunt_probability : Option ℚ := none

/-- Parsed manifest (`PluginManifest`); `loadManifest`'s file input and
YAML parse are outside the model — `loadAllPlugins` below takes the
already-parsed manifest. -/
structure PluginManifest where
  plugins : List PluginConfig
  spookiness_level : Option String := none

/-- `PluginLoader.getSpookinessIntensity`. -/
def getSpookinessIntensity : Option String → ℚ
  | some "mild" => 3/10
  | some "moderate" => 6/10
  | some "terrifying" => 1
  | _ => 1/2

/-- `PluginLoader.loadPlugin(pluginConfig)`: set state `AWAKENING`;
import/instantiate (the oracle); validate (id must match the config); on
success record the instance, set state `DORMANT` and clear the retry
counter; on any failure set state `BANISHED` and surface
`MANIFESTATION_FAILED`. -/
def loadPlugin (inst : String → Nat → Except String MPlugin) (st : LoaderState)
    (cfg : PluginConfig) (attempt : Nat) : LoaderState × Except SError MPlugin :=
  let st1 : LoaderState :=
    { st with pluginStates := setAssoc st.pluginStates cfg.id .awakening }
  let fail : String → LoaderState × Except SError MPlugin := fun msg =>
    ({ st1 with pluginStates := setAssoc st1.pluginStates cfg.id .banished },
     .error ⟨.manifestationFailed, "Failed to load plugin '" ++ cfg.id ++ "': " ++ msg⟩)
  match inst cfg.id attempt with
  | .error msg => fail msg
  | .ok plugin =>
    if plugin.id = cfg.id then
      ({ st1 with loadedPlugins := setAssoc st1.loadedPlugins cfg.id plugin,
                  pluginStates := setAssoc st1.pluginStates cfg.id .dormant,
                  retryAttempts := delAssoc st1.retryAttempts cfg.id }, .ok plugin)
    else
      fail ("Plugin ID mismatch: expected '" ++ cfg.id ++ "', got '" ++ plugin.id ++ "'")

/-- `PluginLoader.retryLoad(pluginConfig, maxRetries)`: read the current
retry counter; refuse outright at the ceiling; otherwise try `loadPlugin`;
on failure bump the counter and either recurse (after the exponential
backoff `retryDelay * 2^newAttempts + jitter`, a pure wait that changes no
state) or re-throw the load error once the bumped counter reaches the
ceiling. -/
def retryLoad (inst : String → Nat → Except String MPlugin) (max : Nat)
    (st : LoaderState) (cfg : PluginConfig) : LoaderState × Except SError MPlugin :=
  let current := (getAssoc st.retryAttempts cfg.id).getD 0
  if h : max ≤ current then
    (st, .error ⟨.manifestationFailed,
      "Plugin '" ++ cfg.id ++ "' failed to load after " ++ toString max ++ " attempts"⟩)
  else
    match loadPlugin inst st cfg current with
    | (st', .ok p) => (st', .ok p)
    | (st', .error err) =>
      let st2 : LoaderState :=
        { st' with retryAttempts := setAssoc st'.retryAttempts cfg.id (current + 1) }
      if current + 1 < max then retryLoad inst max st2 cfg
      else (st2, .error err)
termination_by max - (getAssoc st.retryAttempts cfg.id).getD 0
decreasing_by
  simp only [getAssoc_setAssoc_self, Option.getD_some]
  omega

/-- `PluginLoader.initializePlugin(plugin, hub)`: `AWAKENING`, await
`plugin.init(hub)`, then `ACTIVE` on success or `BANISHED` plus a
`MANIFESTATION_FAILED` throw on failure; with the optional `haunt` hook
present and a winning `Math.random()` draw against the plugin manifest's
`haunt_probability`, the state becomes `HAUNTING` (the haunt stream's
re-emission and its failure fallback to `ACTIVE` happen later,
asynchronously, and are outside this model). -/
def initializePlugin (hauntRand : String → ℚ) (st : LoaderState) (plugin : MPlugin) :
    LoaderState × Option SError :=
  let st1 : LoaderState :=
    { st with pluginStates := setAssoc st.pluginStates plugin.id .awakening }
  match plugin.initThrows with
  | some msg =>
    ({ st1 with pluginStates := setAssoc st1.pluginStates plugin.id .banished },
     some ⟨.manifestationFailed,
       "Failed to initialize plugin '" ++ plugin.id ++ "': " ++ msg⟩)
  | none =>
    let st2 : LoaderState :=
      { st1 with pluginStates := setAssoc st1.pluginStates plugin.id .active }
    if plugin.hasHaunt ∧ hauntRand plugin.id < plugin.hauntProb then
      ({ st2 with pluginStates := setAssoc st2.pluginStates plugin.id .haunting }, none)
    else (st2, none)

/-- The `manifest_loading` event `loadAllPlugins` emits first. -/
def manifestLoadingEvent (clock : Nat) (manifestPath : String) (m : PluginManifest) : Event :=
  .mk "manifest_loading" "PluginLoader" clock
    (.manifestLoading manifestPath m.plugins.length m.spookiness_level)
    (some { haunted := some (m.spookiness_level = some "terrifying"),
            intensity := some (getSpookinessIntensity m.spookiness_level) })

/-- The `plugin_loaded` event emitted for each successful descriptor. -/
def pluginLoadedEvent (clock : Nat) (cfg : PluginConfig) (plugin : MPlugin) : Event :=
  .mk "plugin_loaded" "PluginLoader" clock
    (.pluginLoaded plugin.id cfg.path cfg.haunt_probability)
    (some { haunted := some (decide ((1:ℚ)/2 < cfg.haunt_probability.getD 0)),
            intensity := some (cfg.haunt_probability.getD 0) })

/-- The `plugin_load_failed` event emitted for each failing descriptor. -/
def pluginLoadFailedEvent (clock : Nat) (pluginId msg : String) : Event :=
  .mk "plugin_load_failed" "PluginLoader" clock
    (.pluginLoadFailed pluginId msg)
    (some { haunted := some true, intensity := some (8/10) })

/-- The `coven_assembled` event emitted after the loop. -/
def covenAssembledEvent (clock : Nat) (total loaded : Nat) : Event :=
  .mk "coven_assembled" "PluginLoader" clock
    (.covenAssembled total loaded (total - loaded))
    (some { haunted := some (loaded < total), intensity := some ((loaded : ℚ) / total) })

/-- One iteration of the `for (const pluginConfig of manifest.plugins)`
loop: `retryLoad`, then `initializePlugin`, record the plugin and emit
`plugin_loaded`; any thrown error is caught, `plugin_load_failed` is
emitted, and the loop continues. -/
def loadStep (inst : String → Nat → Except String MPlugin) (hauntRand : String → ℚ)
    (clock : Nat)
    (acc : LoaderState × List (String × MPlugin) × List Event) (cfg : PluginConfig) :
    LoaderState × List (String × MPlugin) × List Event :=
  let (st, loaded, events) := acc
  match retryLoad inst 3 st cfg with
  | (st', .ok plugin) =>
    match initializePlugin hauntRand st' plugin with
    | (st'', none) =>
      (st'', setAssoc loaded plugin.id plugin,
       events ++ [pluginLoadedEvent clock cfg plugin])
    | (st'', some err) =>
      (st'', loaded, events ++ [pluginLoadFailedEvent clock cfg.id err.message])
  | (st', .error err) =>
    (st', loaded, events ++ [pluginLoadFailedEvent clock cfg.id err.message])

/-- `PluginLoader.loadAllPlugins(manifestPath, hub)` after the manifest has
been parsed: emit `manifest_loading`, run the loop, emit `coven_assembled`;
returns the loader state, the map of successfully loaded plugins (the
function's return value) and every event handed to `hub.emit`, in order. -/
def loadAllPlugins (inst : String → Nat → Except String MPlugin)
    (hauntRand : String → ℚ) (clock : Nat) (st : LoaderState)
    (manifestPath : String) (manifest : PluginManifest) :
    LoaderState × List (String × MPlugin) × List Event :=
  let start := (st, ([] : List (String × MPlugin)),
    [manifestLoadingEvent clock manifestPath manifest])
  let res := manifest.plugins.foldl (loadStep inst hauntRand clock) start
  (res.1, res.2.1,
   res.2.2 ++ [covenAssembledEvent clock manifest.plugins.length res.2.1.length])

/-- A descriptor whose plugin loads on the first attempt with a matching
id and a non-throwing `init`. -/
def GoodCfg (inst : String → Nat → Except String MPlugin) (cfg : PluginConfig) : Prop :=
  ∃ p, inst cfg.id 0 = .ok p ∧ p.id = cfg.id ∧ p.initThrows = none

/-- A descriptor whose plugin terminally fails to load: every
import/instantiate attempt throws. -/
def BadCfg (inst : String → Nat → Except String MPlugin) (cfg : PluginConfig) : Prop :=
  ∀ n, ∃ m, inst cfg.id n = .error m

theorem retryLoad_fresh_success (inst : String → Nat → Except String MPlugin)
    (st : LoaderState) (cfg : PluginConfig) (p : MPlugin)
    (hcur : getAssoc st.retryAttempts cfg.id = none)
    (hok : inst cfg.id 0 = .ok p) (hid : p.id = cfg.id) :
    retryLoad inst 3 st cfg
      = ({ st with
            loadedPlugins := setAssoc st.loadedPlugins cfg.id p,
            pluginStates :=
              setAssoc (setAssoc st.pluginStates cfg.id .awakening) cfg.id .dormant,
            retryAttempts := delAssoc st.retryAttempts cfg.id }, .ok p) := by
  rw [retryLoad]
  simp only [hcur, Option.getD_none, loadPlugin, hok, hid, if_pos, dif_neg (by omega : ¬ 3 ≤ 0)]

theorem retryLoad_always_fails (inst : String → Nat → Except String MPlugin)
    (max : Nat) :
    ∀ (st : LoaderState) (cfg : PluginConfig),
      (∀ n, ∃ m, inst cfg.id n = .error m) →
      ∃ st' m, retryLoad inst max st cfg = (st', .error ⟨.manifestationFailed, m⟩) ∧
        st'.loadedPlugins = st.loadedPlugins ∧
        (∀ k, k ≠ cfg.id → getAssoc st'.pluginStates k = getAssoc st.pluginStates k) ∧
        (∀ k, k ≠ cfg.id → getAssoc st'.retryAttempts k = getAssoc st.retryAttempts k) := by
  have H : ∀ (fuel : Nat) (st : LoaderState) (cfg : PluginConfig),
      max - (getAssoc st.retryAttempts cfg.id).getD 0 ≤ fuel →
      (∀ n, ∃ m, inst cfg.id n = .error m) →
      ∃ st' m, retryLoad inst max st cfg = (st', .error ⟨.manifestationFailed, m⟩) ∧
        st'.loadedPlugins = st.loadedPlugins ∧
        (∀ k, k ≠ cfg.id → getAssoc st'.pluginStates k = getAssoc st.pluginStates k) ∧
        (∀ k, k ≠ cfg.id → getAssoc st'.retryAttempts k = getAssoc st.retryAttempts k) := by
    intro fuel
    induction fuel with
    | zero =>
      intro st cfg hle _
      rw [retryLoad]
      rw [dif_pos (by omega)]
      exact ⟨st, _, rfl, rfl, fun _ _ => rfl, fun _ _ => rfl⟩
    | succ f ihf =>
      intro st cfg hle hfail
      rw [retryLoad]
      by_cases hc : max ≤ (getAssoc st.retryAttempts cfg.id).getD 0
      · rw [dif_pos hc]
        exact ⟨st, _, rfl, rfl, fun _ _ => rfl, fun _ _ => rfl⟩
      · rw [dif_neg hc]
        obtain ⟨m0, hm0⟩ := hfail ((getAssoc st.retryAttempts cfg.id).getD 0)
        simp only [loadPlugin, hm0]
        set cur := (getAssoc st.retryAttempts cfg.id).getD 0 with hcurdef
        set stB : LoaderState :=
          { st with pluginStates :=
              setAssoc (setAssoc st.pluginStates cfg.id .awakening) cfg.id .banished }
          with hstB
        set st2 : LoaderState :=
          { stB with retryAttempts := setAssoc stB.retryAttempts cfg.id (cur + 1) }
          with hst2
        have hframeB : ∀ k, k ≠ cfg.id →
            getAssoc st2.pluginStates k = getAssoc st.pluginStates k ∧
            getAssoc st2.retryAttempts k = getAssoc st.retryAttempts k := by
          intro k hk
          constructor
          · rw [hst2, hstB]
            simp only
            rw [getAssoc_setAssoc_ne _ _ _ _ hk, getAssoc_setAssoc_ne _ _ _ _ hk]
          · rw [hst2]
            simp only
            rw [getAssoc_setAssoc_ne _ _ _ _ hk]
        by_cases hlt : cur + 1 < max
        · rw [if_pos hlt]
          obtain ⟨st', m, heq, hload, hps, hra⟩ :=
            ihf st2 cfg
              (by
                rw [hst2]
                simp only [getAssoc_setAssoc_self, Option.getD_some]
                omega)
              hfail
          refine ⟨st', m, heq, hload.trans rfl, ?_, ?_⟩
          · intro k hk
            rw [hps k hk, (hframeB k hk).1]
          · intro k hk
            rw [hra k hk, (hframeB k hk).2]
        · rw [if_neg hlt]
          exact ⟨st2, _, rfl, rfl, fun k hk => (hframeB k hk).1, fun k hk => (hframeB k hk).2⟩
  intro st cfg hfail
  exact H max st cfg (by omega) hfail

theorem loadStep_good (inst : String → Nat → Except String MPlugin)
    (hauntRand : String → ℚ) (clock : Nat) (st : LoaderState)
    (loaded : List (String × MPlugin)) (events : List Event) (cfg : PluginConfig)
    (p : MPlugin)
    (hcur : getAssoc st.retryAttempts cfg.id = none)
    (hok : inst cfg.id 0 = .ok p) (hid : p.id = cfg.id) (hinit : p.initThrows = none) :
    ∃ stG, loadStep inst hauntRand clock (st, loaded, events) cfg
        = (stG, setAssoc loaded cfg.id p, events ++ [pluginLoadedEvent clock cfg p]) ∧
      getAssoc stG.pluginStates cfg.id
        = some (if p.hasHaunt ∧ hauntRand cfg.id < p.hauntProb then .haunting else .active) ∧
      (∀ k, k ≠ cfg.id → getAssoc stG.pluginStates k = getAssoc st.pluginStates k) ∧
      (∀ k, k ≠ cfg.id → getAssoc stG.retryAttempts k = getAssoc st.retryAttempts k) := by
  unfold loadStep
  dsimp only
  rw [retryLoad_fresh_success inst st cfg p hcur hok hid]
  simp only [initializePlugin, hinit, hid]
  by_cases hcond : p.hasHaunt ∧ hauntRand cfg.id < p.hauntProb
  · rw [if_pos hcond, if_pos hcond]
    refine ⟨_, rfl, ?_, ?_, ?_⟩
    · simp only [getAssoc_setAssoc_self]
    · intro k hk
      simp only
      rw [getAssoc_setAssoc_ne _ _ _ _ hk, getAssoc_setAssoc_ne _ _ _ _ hk,
        getAssoc_setAssoc_ne _ _ _ _ hk, getAssoc_setAssoc_ne _ _ _ _ hk,
        getAssoc_setAssoc_ne _ _ _ _ hk]
    · intro k hk
      simp only
      exact getAssoc_delAssoc_ne _ _ _ hk
  · rw [if_neg hcond, if_neg hcond]
    refine ⟨_, rfl, ?_, ?_, ?_⟩
    · simp only [getAssoc_setAssoc_self]
    · intro k hk
      simp only
      rw [getAssoc_setAssoc_ne _ _ _ _ hk, getAssoc_setAssoc_ne _ _ _ _ hk,
        getAssoc_setAssoc_ne _ _ _ _ hk, getAssoc_setAssoc_ne _ _ _ _ hk]
    · intro k hk
      simp only
      exact getAssoc_delAssoc_ne _ _ _ hk

theorem loadStep_bad (inst : String → Nat → Except String MPlugin)
    (hauntRand : String → ℚ) (clock : Nat) (st : LoaderState)
    (loaded : List (String × MPlugin)) (events : List Event) (cfg : PluginConfig)
    (hfail : BadCfg inst cfg) :
    ∃ stB m, loadStep inst hauntRand clock (st, loaded, events) cfg
        = (stB, loaded, events ++ [pluginLoadFailedEvent clock cfg.id m]) ∧
      (∀ k, k ≠ cfg.id → getAssoc stB.pluginStates k = getAssoc st.pluginStates k) ∧
      (∀ k, k ≠ cfg.id → getAssoc stB.retryAttempts k = getAssoc st.retryAttempts k) := by
  unfold loadStep
  dsimp only
  obtain ⟨st', m, heq, _, hps, hra⟩ := retryLoad_always_fails inst 3 st cfg hfail
  rw [heq]
  exact ⟨st', m, rfl, hps, hra⟩

/-- Invariant of the `loadAllPlugins` loop over any mix of cleanly-loading
and terminally-failing descriptors with distinct ids. -/
theorem loadFold_spec (inst : String → Nat → Except String MPlugin)
    (hauntRand : String → ℚ) (clock : Nat) :
    ∀ (L : List PluginConfig) (st : LoaderState) (loaded : List (String × MPlugin))
      (events : List Event),
      (∀ cfg ∈ L, getAssoc st.retryAttempts cfg.id = none) →
      (∀ cfg ∈ L, GoodCfg inst cfg ∨ BadCfg inst cfg) →
      (L.map PluginConfig.id).Nodup →
      (∀ k, k ∉ L.map PluginConfig.id →
        getAssoc (L.foldl (loadStep inst hauntRand clock) (st, loaded, events)).1.pluginStates k
          = getAssoc st.pluginStates k ∧
        getAssoc (L.foldl (loadStep inst hauntRand clock) (st, loaded, events)).2.1 k
          = getAssoc loaded k) ∧
      (∃ ext, (L.foldl (loadStep inst hauntRand clock) (st, loaded, events)).2.2
          = events ++ ext) ∧
      (∀ cfg ∈ L, GoodCfg inst cfg →
        ∃ p, inst cfg.id 0 = .ok p ∧ p.id = cfg.id ∧
          getAssoc (L.foldl (loadStep inst hauntRand clock) (st, loaded, events)).2.1 cfg.id
            = some p ∧
          getAssoc (L.foldl (loadStep inst hauntRand clock) (st, loaded, events)).1.pluginStates
              cfg.id
            = some (if p.hasHaunt ∧ hauntRand cfg.id < p.hauntProb
                    then PluginState.haunting else PluginState.active)) ∧
      (∀ cfg ∈ L, BadCfg inst cfg →
        getAssoc (L.foldl (loadStep inst hauntRand clock) (st, loaded, events)).2.1 cfg.id
          = getAssoc loaded cfg.id ∧
        ∃ m, pluginLoadFailedEvent clock cfg.id m
          ∈ (L.foldl (loadStep inst hauntRand clock) (st, loaded, events)).2.2) := by
  intro L
  induction L with
  | nil =>
    intro st loaded events _ _ _
    exact ⟨fun k _ => ⟨rfl, rfl⟩, ⟨[], by simp⟩, fun cfg h => absurd h (List.not_mem_nil _),
      fun cfg h => absurd h (List.not_mem_nil _)⟩
  | cons cfg L' ih =>
    intro st loaded events hfresh hclass hnodup
    have hcons : cfg.id ∉ L'.map PluginConfig.id ∧ (L'.map PluginConfig.id).Nodup :=
      List.nodup_cons.mp (by rw [List.map_cons] at hnodup; exact hnodup)
    have hnotin : cfg.id ∉ L'.map PluginConfig.id := hcons.1
    have hnodup' : (L'.map PluginConfig.id).Nodup := hcons.2
    rcases hclass cfg (List.mem_cons_self _ _) with hg | hb
    · -- head descriptor loads cleanly
      obtain ⟨p, hok, hid, hinit⟩ := hg
      obtain ⟨stG, hstep, hself, hpsG, hraG⟩ :=
        loadStep_good inst hauntRand clock st loaded events cfg p
          (hfresh cfg (List.mem_cons_self _ _)) hok hid hinit
      have hfold : (cfg :: L').foldl (loadStep inst hauntRand clock) (st, loaded, events)
          = L'.foldl (loadStep inst hauntRand clock)
              (stG, setAssoc loaded cfg.id p, events ++ [pluginLoadedEvent clock cfg p]) := by
        rw [List.foldl_cons, hstep]
      obtain ⟨hframe', hext', hgood', hbad'⟩ :=
        ih stG (setAssoc loaded cfg.id p) (events ++ [pluginLoadedEvent clock cfg p])
          (by
            intro c hc
            have hne : c.id ≠ cfg.id := by
              intro hcontr
              exact hnotin (hcontr ▸ List.mem_map.mpr ⟨c, hc, rfl⟩)
            rw [hraG c.id hne]
            exact hfresh c (List.mem_cons_of_mem _ hc))
          (fun c hc => hclass c (List.mem_cons_of_mem _ hc)) hnodup'
      rw [hfold]
      refine ⟨?_, ?_, ?_, ?_⟩
      · intro k hk
        have hk1 : k ≠ cfg.id := by
          intro hcontr
          exact hk (hcontr ▸ List.mem_cons_self _ _)
        have hk2 : k ∉ L'.map PluginConfig.id := fun hh => hk (List.mem_cons_of_mem _ hh)
        obtain ⟨hpsf, hldf⟩ := hframe' k hk2
        exact ⟨hpsf.trans (hpsG k hk1),
          hldf.trans (getAssoc_setAssoc_ne _ _ _ _ hk1)⟩
      · obtain ⟨ext, hev⟩ := hext'
        exact ⟨[pluginLoadedEvent clock cfg p] ++ ext, by rw [hev]; simp⟩
      · intro c hc hgc
        rcases List.mem_cons.mp hc with hceq | hcmem
        · subst hceq
          obtain ⟨hpsf, hldf⟩ := hframe' c.id hnotin
          refine ⟨p, hok, hid, ?_, ?_⟩
          · rw [hldf, getAssoc_setAssoc_self]
          · rw [hpsf, hself]
        · exact hgood' c hcmem hgc
      · intro c hc hbc
        rcases List.mem_cons.mp hc with hceq | hcmem
        · subst hceq
          obtain ⟨m0, hm0⟩ := hbc 0
          rw [hok] at hm0
          exact absurd hm0 (by simp)
        · have hne : c.id ≠ cfg.id := by
            intro hcontr
            exact hnotin (hcontr ▸ List.mem_map.mpr ⟨c, hcmem, rfl⟩)
          obtain ⟨hld, m, hm⟩ := hbad' c hcmem hbc
          exact ⟨hld.trans (getAssoc_setAssoc_ne _ _ _ _ hne), m, hm⟩
    · -- head descriptor terminally fails
      obtain ⟨stB, m0, hstep, hpsB, hraB⟩ :=
        loadStep_bad inst hauntRand clock st loaded events cfg hb
      have hfold : (cfg :: L').foldl (loadStep inst hauntRand clock) (st, loaded, events)
          = L'.foldl (loadStep inst hauntRand clock)
              (stB, loaded, events ++ [pluginLoadFailedEvent clock cfg.id m0]) := by
        rw [List.foldl_cons, hstep]
      obtain ⟨hframe', hext', hgood', hbad'⟩ :=
        ih stB loaded (events ++ [pluginLoadFailedEvent clock cfg.id m0])
          (by
            intro c hc
            have hne : c.id ≠ cfg.id := by
              intro hcontr
              exact hnotin (hcontr ▸ List.mem_map.mpr ⟨c, hc, rfl⟩)
            rw [hraB c.id hne]
            exact hfresh c (List.mem_cons_of_mem _ hc))
          (fun c hc => hclass c (List.mem_cons_of_mem _ hc)) hnodup'
      rw [hfold]
      refine ⟨?_, ?_, ?_, ?_⟩
      · intro k hk
        have hk1 : k ≠ cfg.id := by
          intro hcontr
          exact hk (hcontr ▸ List.mem_cons_self _ _)
        have hk2 : k ∉ L'.map PluginConfig.id := fun hh => hk (List.mem_cons_of_mem _ hh)
        obtain ⟨hpsf, hldf⟩ := hframe' k hk2
        exact ⟨hpsf.trans (hpsB k hk1), hldf⟩
      · obtain ⟨ext, hev⟩ := hext'
        exact ⟨[pluginLoadFailedEvent clock cfg.id m0] ++ ext, by rw [hev]; simp⟩
      · intro c hc hgc
        rcases List.mem_cons.mp hc with hceq | hcmem
        · subst hceq
          obtain ⟨p, hok, _, _⟩ := hgc
          obtain ⟨mm, hmm⟩ := hb 0
          rw [hok] at hmm
          exact absurd hmm (by simp)
        · exact hgood' c hcmem hgc
      · intro c hc hbc
        rcases List.mem_cons.mp hc with hceq | hcmem
        · subst hceq
          obtain ⟨hpsf, hldf⟩ := hframe' c.id hnotin
          obtain ⟨ext, hev⟩ := hext'
          refine ⟨hldf, m0, ?_⟩
          rw [hev]
          exact List.mem_append_left _ (List.mem_append_right _ (List.mem_cons_self _ _))
        · exact hbad' c hcmem hbc

/-- **C5.** For a manifest whose descriptors have distinct ids and in
which exactly one descriptor (`bad`) terminally fails to load while every
other descriptor's plugin loads and initializes cleanly, `loadAllPlugins`
still loads and initializes every other plugin — each ends in the
`ACTIVE` lifecycle state (or `HAUNTING`, the active-and-spontaneously-
emitting state, exactly when it opted in and won the haunt draw) and is in
the returned map — emits a `plugin_load_failed` diagnostic event for the
failed descriptor, and returns the map of successfully loaded plugins,
which has no entry for the failed one: one plugin's terminal failure never
aborts the batch. -/
theorem c5_batch_resilience (inst : String → Nat → Except String MPlugin)
    (hauntRand : String → ℚ) (clock : Nat) (st0 : LoaderState)
    (manifestPath : String) (lvl : Option String)
    (pre post : List PluginConfig) (bad : PluginConfig)
    (hfresh : ∀ cfg ∈ pre ++ bad :: post, getAssoc st0.retryAttempts cfg.id = none)
    (hnodup : ((pre ++ bad :: post).map PluginConfig.id).Nodup)
    (hgood : ∀ cfg ∈ pre ++ post, GoodCfg inst cfg)
    (hbad : BadCfg inst bad) :
    (∀ cfg ∈ pre ++ post, ∃ p, p.id = cfg.id ∧
      getAssoc (loadAllPlugins inst hauntRand clock st0 manifestPath
          ⟨pre ++ bad :: post, lvl⟩).2.1 cfg.id = some p ∧
      getAssoc (loadAllPlugins inst hauntRand clock st0 manifestPath
          ⟨pre ++ bad :: post, lvl⟩).1.pluginStates cfg.id
        = some (if p.hasHaunt ∧ hauntRand cfg.id < p.hauntProb
                then PluginState.haunting else PluginState.active)) ∧
    getAssoc (loadAllPlugins inst hauntRand clock st0 manifestPath
        ⟨pre ++ bad :: post, lvl⟩).2.1 bad.id = none ∧
    (∃ m, pluginLoadFailedEvent clock bad.id m
      ∈ (loadAllPlugins inst hauntRand clock st0 manifestPath
          ⟨pre ++ bad :: post, lvl⟩).2.2) := by
  have hbadmem : bad ∈ pre ++ bad :: post :=
    List.mem_append_right _ (List.mem_cons_self _ _)
  have hclass : ∀ cfg ∈ pre ++ bad :: post, GoodCfg inst cfg ∨ BadCfg inst cfg := by
    intro cfg hc
    rcases List.mem_append.mp hc with hp | hq
    · exact Or.inl (hgood cfg (List.mem_append.mpr (Or.inl hp)))
    · rcases List.mem_cons.mp hq with hbq | hq'
      · exact hbq ▸ Or.inr hbad
      · exact Or.inl (hgood cfg (List.mem_append.mpr (Or.inr hq')))
  obtain ⟨hframe, hext, hgoodC, hbadC⟩ :=
    loadFold_spec inst hauntRand clock (pre ++ bad :: post) st0 []
      [manifestLoadingEvent clock manifestPath ⟨pre ++ bad :: post, lvl⟩]
      hfresh hclass hnodup
  refine ⟨?_, ?_, ?_⟩
  · intro cfg hc
    have hcL : cfg ∈ pre ++ bad :: post := by
      rcases List.mem_append.mp hc with hp | hq
      · exact List.mem_append.mpr (Or.inl hp)
      · exact List.mem_append.mpr (Or.inr (List.mem_cons_of_mem _ hq))
    obtain ⟨p, _, hid, hld, hps⟩ := hgoodC cfg hcL (hgood cfg hc)
    exact ⟨p, hid, hld, hps⟩
  · exact (hbadC bad hbadmem hbad).1
  · obtain ⟨_, m, hm⟩ := hbadC bad hbadmem hbad
    exact ⟨m, List.mem_append_left _ hm⟩

/-- Load oracle for the witness: descriptor `two` always fails to
import, everything else instantiates to a plugin with a matching id. -/
def c5inst : String → Nat → Except String MPlugin := fun pid _ =>
  if pid = "two" then .error "module not found" else .ok { id := pid }

/-- Descriptor for the witness manifest. -/
def c5cfg (pid : String) : PluginConfig := { id := pid, path := "./" ++ pid, className := pid }

theorem c5_witness :
    (∀ cfg ∈ [c5cfg "one"] ++ [c5cfg "three"], ∃ p, p.id = cfg.id ∧
      getAssoc (loadAllPlugins c5inst (fun _ => 1) 0 {} "plugins.yaml"
          ⟨[c5cfg "one"] ++ c5cfg "two" :: [c5cfg "three"], none⟩).2.1 cfg.id = some p ∧
      getAssoc (loadAllPlugins c5inst (fun _ => 1) 0 {} "plugins.yaml"
          ⟨[c5cfg "one"] ++ c5cfg "two" :: [c5cfg "three"], none⟩).1.pluginStates cfg.id
        = some (if p.hasHaunt ∧ (1:ℚ) < p.hauntProb
                then PluginState.haunting else PluginState.active)) ∧
    getAssoc (loadAllPlugins c5inst (fun _ => 1) 0 {} "plugins.yaml"
        ⟨[c5cfg "one"] ++ c5cfg "two" :: [c5cfg "three"], none⟩).2.1 (c5cfg "two").id
      = none ∧
    (∃ m, pluginLoadFailedEvent 0 (c5cfg "two").id m
      ∈ (loadAllPlugins c5inst (fun _ => 1) 0 {} "plugins.yaml"
          ⟨[c5cfg "one"] ++ c5cfg "two" :: [c5cfg "three"], none⟩).2.2) :=
  c5_batch_resilience c5inst (fun _ => 1) 0 {} "plugins.yaml" none
    [c5cfg "one"] [c5cfg "three"] (c5cfg "two")
    (fun _ _ => rfl)
    (by decide)
    (by
      intro cfg hc
      rcases List.mem_cons.mp hc with h1 | hc2
      · exact h1 ▸ ⟨{ id := "one" }, rfl, rfl, rfl⟩
      · rcases List.mem_cons.mp hc2 with h3 | hc3
        · exact h3 ▸ ⟨{ id := "three" }, rfl, rfl, rfl⟩
        · exact absurd hc3 (List.not_mem_nil _))
    (fun _ => ⟨"module not found", rfl⟩)

/-! ## `EventHub.processStream` retry pipeline (C4)

The pipeline is
`input$.pipe(tap, switchMap(...),`shareReplay({bufferSize:1, refCount:true}),
`catchError(err => { manifestGhostlyCrash(...); return throwError(SpectralError) }),`
`retryWhen(errors$ => errors$.pipe(tap(...), switchMap((error, index) =>`
`index >= 3 ? throwError(error) : timer(2^index * 1000 + Math.random()*1000)), take(3))))`.

For a source that fails synchronously on every (re)subscription — the
scenario of the claim — the run unfolds as a sequence of happenings:

* each failed subscription attempt passes through `catchError`, which
  emits a `ghostly_crash` diagnostic (`manifestGhostlyCrash`) and rethrows
  a `DISTURBANCE_DETECTED` spectral error into `retryWhen`'s notifier;
* the notifier's `switchMap` sees the error with a running `index`: below
  3 it waits `2^index * 1000 + jitter` (jitter = `Math.random()*1000`,
  so in `[0, 1000)`) and its `timer` value makes `retryWhen` resubscribe
  the source — one retry (with `refCount: true`, the errored
  `shareReplay` connector was reset when the previous subscription tore
  down, so the resubscription really re-runs the upstream);
* the third timer value is also the third value through `take(3)`;
  `take` hands it downstream (triggering the third resubscription and,
  synchronously, the fourth failure, whose error reaches the notifier at
  `index = 3` and hits the `index >= 3` branch, erroring the notifier and
  with it the output stream) before it can signal completion — the output
  therefore terminates with the spectral error, not with completion. -/

/-- One observable happening of the retry pipeline run. -/
inductive RetryEv where
  | ghostlyCrash : RetryEv
  | backoffDelay : ℚ → RetryEv
  | resubscribe : RetryEv
  | terminalError : RetryEv
deriving DecidableEq, Repr

/-- The happenings from the point where the source has just failed with
notifier index `i` (`jitter n` is the `Math.random()*1000` draw of the
`n`-th backoff). -/
def retryRun (jitter : Nat → ℚ) (i : Nat) : List RetryEv :=
  if 3 ≤ i then [.ghostlyCrash, .terminalError]
  else .ghostlyCrash :: .backoffDelay (2 ^ i * 1000 + jitter i) ::
    .resubscribe :: retryRun jitter (i + 1)
termination_by 4 - i

/-- The full run of `processStream` over a source that fails synchronously
on every subscription: the initial failed attempt enters the notifier at
index 0. -/
def processStreamAlwaysFailTrace (jitter : Nat → ℚ) : List RetryEv :=
  retryRun jitter 0

/-- **C4.** A transform pipeline that fails at the outer-stream level on
every attempt is retried exactly 3 times; the `k`-th retry is preceded by
an exponential-backoff delay of `1000·2^k` (base delay × 2^attempt) plus a
random jitter below one unit (1000 ms); after the third retry the stream
terminates in failure (`terminalError`, the rethrown `DISTURBANCE_DETECTED`
spectral error — not completion); and every retry is observable through
the `ghostly_crash` diagnostic emitted for the failure that triggered it. -/
theorem c4_retry_ceiling (jitter : Nat → ℚ)
    (hj : ∀ n, 0 ≤ jitter n ∧ jitter n < 1000) :
    processStreamAlwaysFailTrace jitter
      = [.ghostlyCrash, .backoffDelay (1000 + jitter 0), .resubscribe,
         .ghostlyCrash, .backoffDelay (2000 + jitter 1), .resubscribe,
         .ghostlyCrash, .backoffDelay (4000 + jitter 2), .resubscribe,
         .ghostlyCrash, .terminalError] ∧
    (processStreamAlwaysFailTrace jitter).count .resubscribe = 3 ∧
    (processStreamAlwaysFailTrace jitter).count .ghostlyCrash = 4 ∧
    (processStreamAlwaysFailTrace jitter).getLast? = some .terminalError ∧
    (∀ k, k < 3 →
      1000 * 2 ^ k ≤ 1000 * 2 ^ k + jitter k ∧
      1000 * 2 ^ k + jitter k < 1000 * 2 ^ k + 1000) := by
  have htrace : processStreamAlwaysFailTrace jitter
      = [.ghostlyCrash, .backoffDelay (1000 + jitter 0), .resubscribe,
         .ghostlyCrash, .backoffDelay (2000 + jitter 1), .resubscribe,
         .ghostlyCrash, .backoffDelay (4000 + jitter 2), .resubscribe,
         .ghostlyCrash, .terminalError] := by
    unfold processStreamAlwaysFailTrace
    rw [retryRun, retryRun, retryRun, retryRun]
    norm_num
  refine ⟨htrace, ?_, ?_, ?_, ?_⟩
  · rw [htrace]; rfl
  · rw [htrace]; rfl
  · rw [htrace]; rfl
  · intro k hk
    have := hj k
    constructor <;> linarith [this.1, this.2]

theorem c4_witness :
    processStreamAlwaysFailTrace (fun _ => 500)
      = [.ghostlyCrash, .backoffDelay 1500, .resubscribe,
         .ghostlyCrash, .backoffDelay 2500, .resubscribe,
         .ghostlyCrash, .backoffDelay 4500, .resubscribe,
         .ghostlyCrash, .terminalError] ∧
    (processStreamAlwaysFailTrace (fun _ => 500)).count .resubscribe = 3 ∧
    (processStreamAlwaysFailTrace (fun _ => 500)).getLast? = some .terminalError := by
  obtain ⟨htr, hc, _, hl, _⟩ :=
    c4_retry_ceiling (fun _ => 500) (fun n => by norm_num)
  refine ⟨?_, hc, hl⟩
  rw [htr]
  norm_num

/-! ## `EventHub.fuseStreams` (C8)

`fuseStreams(...streams)` is
`combineLatest(streams).pipe(debounceTime(10),`
`distinctUntilChanged(JSON.stringify-equality), tap(...),`
`catchError(err => { manifestGhostlyCrash(...); return of([]) }),`
`shareReplay({bufferSize:1, refCount:true}))`.

The model runs the operator chain over finite timestamped traces.  A
source trace is a single timeline of messages `(time, source index,
next v | error | complete)` with non-decreasing times; the stages are the
trace transformers below.  `shareReplay` is observation-neutral for a
single subscriber and has no transformer. -/

/-- A message from one of the fused sources. -/
inductive SrcEv (α : Type) where
  | next (v : α)
  | error
  | complete
deriving DecidableEq

/-- A timestamped source message: at `t`, source `src` does `ev`. -/
structure SrcMsg (α : Type) where
  t : Nat
  src : Nat
  ev : SrcEv α
deriving DecidableEq

/-- A message on an operator's output: a value, an error, or completion,
with the time it happens. -/
inductive CMsg (β : Type) where
  | next (t : Nat) (v : β)
  | error (t : Nat)
  | complete (t : Nat)
deriving DecidableEq

/-- `combineLatest`: remember each source's latest value; once every
source has produced one, emit the combined tuple on every update; an
error from any source errors the combination immediately (tearing the
subscriptions down — later input is never seen); a source completing
without ever emitting completes the combination; when all sources have
completed it completes. -/
def clRun {α : Type} (latest : List (Option α)) (completed : List Bool) :
    List (SrcMsg α) → List (CMsg (List α))
  | [] => []
  | m :: rest =>
    match m.ev with
    | .next v =>
      let latest' := latest.set m.src (some v)
      if latest'.all Option.isSome then
        .next m.t (latest'.filterMap id) :: clRun latest' completed rest
      else
        clRun latest' completed rest
    | .error => [.error m.t]
    | .complete =>
      match latest.get? m.src with
      | some none => [.complete m.t]
      | _ =>
        let completed' := completed.set m.src true
        if completed'.all (· = true) then [.complete m.t]
        else clRun latest completed' rest

/-- The time a pipeline message happens. -/
def CMsg.time {β : Type} : CMsg β → Nat
  | .next t _ => t
  | .error t => t
  | .complete t => t

/-- `debounceTime(10)`: a value becomes pending and is emitted 10 time
units later unless superseded; an arriving error drops the pending value
and propagates; completion flushes the pending value and completes; at
the end of the observed trace a still-pending value fires when its timer
elapses. -/
def debounceRun {β : Type} (pending : Option (Nat × β)) :
    List (CMsg β) → List (CMsg β)
  | [] =>
    match pending with
    | some (t0, v) => [.next (t0 + 10) v]
    | none => []
  | m :: rest =>
    let fired : List (CMsg β) :=
      match pending with
      | some (t0, v) => if t0 + 10 ≤ m.time then [.next (t0 + 10) v] else []
      | none => []
    let pending1 : Option (Nat × β) :=
      match pending with
      | some (t0, _) => if t0 + 10 ≤ m.time then none else pending
      | none => none
    fired ++
      (match m with
       | .next t v => debounceRun (some (t, v)) rest
       | .error t => [.error t]
       | .complete t =>
         (match pending1 with
          | some (_, v) => [.next t v]
          | none => []) ++ [.complete t])

/-- `distinctUntilChanged((prev, curr) => JSON.stringify(prev) ===`
`JSON.stringify(curr))`: drop a value structurally equal to the previous
one. -/
def distinctRun {β : Type} [DecidableEq β] (last : Option β) :
    List (CMsg β) → List (CMsg β)
  | [] => []
  | .next t v :: rest =>
    if last = some v then distinctRun last rest
    else .next t v :: distinctRun (some v) rest
  | .error t :: _ => [.error t]
  | .complete t :: _ => [.complete t]

/-- `catchError(error => { manifestGhostlyCrash(error, fusionId);`
`return of([] as T[]) })`: on an upstream error, emit the empty tuple and
complete — `of([])` is a one-element observable that then completes. -/
def catchRun {α : Type} : List (CMsg (List α)) → List (CMsg (List α))
  | [] => []
  | .next t v :: rest => .next t v :: catchRun rest
  | .error t :: _ => [.next t [], .complete t]
  | .complete t :: _ => [.complete t]

/-- The whole `fuseStreams` pipeline over `k` sources (the `k = 0` case is
the early `return of([])`). -/
def fuseStreamsRun (α : Type) [DecidableEq α] (k : Nat) (input : List (SrcMsg α)) :
    List (CMsg (List α)) :=
  if k = 0 then [.next 0 [], .complete 0]
  else
    catchRun (distinctRun none
      (debounceRun none (clRun (List.replicate k (none : Option α))
        (List.replicate k false) input)))

/-- A pipeline message that is a combined tuple (not a terminal marker). -/
def CMsg.isTuple {β : Type} : CMsg β → Bool
  | .next _ _ => true
  | _ => false

/-- `combineLatest` output shape when it errors: tuples, then the error,
nothing after. -/
theorem clRun_error_last {α : Type} (t : Nat) :
    ∀ (input : List (SrcMsg α)) (latest : List (Option α)) (completed : List Bool),
      CMsg.error t ∈ clRun latest completed input →
      ∃ pre, clRun latest completed input = pre ++ [.error t] ∧
        ∀ m ∈ pre, m.isTuple = true := by
  intro input
  induction input with
  | nil => intro latest completed h; exact absurd h (List.not_mem_nil _)
  | cons m rest ih =>
    intro latest completed h
    rw [clRun] at h ⊢
    match hev : m.ev with
    | .next v =>
      rw [hev] at h
      dsimp only at h ⊢
      by_cases hall : (latest.set m.src (some v)).all Option.isSome
      · rw [if_pos hall] at h ⊢
        rcases List.mem_cons.mp h with hhd | htl
        · exact absurd hhd.symm (by simp)
        · obtain ⟨pre, heq, hpre⟩ := ih _ _ htl
          refine ⟨.next m.t ((latest.set m.src (some v)).filterMap id) :: pre,
            by rw [heq, List.cons_append], ?_⟩
          intro x hx
          rcases List.mem_cons.mp hx with h1 | h2
          · rw [h1]; rfl
          · exact hpre x h2
      · rw [if_neg hall] at h ⊢
        exact ih _ _ h
    | .error =>
      rw [hev] at h
      dsimp only at h ⊢
      rcases List.mem_cons.mp h with hhd | htl
      · rw [CMsg.error.injEq] at hhd
        subst hhd
        exact ⟨[], rfl, fun x hx => absurd hx (List.not_mem_nil _)⟩
      · exact absurd htl (List.not_mem_nil _)
    | .complete =>
      rw [hev] at h
      dsimp only at h ⊢
      match hget : latest.get? m.src with
      | some none =>
        rw [hget] at h
        dsimp only at h ⊢
        rcases List.mem_cons.mp h with hhd | htl
        · exact absurd hhd.symm (by simp)
        · exact absurd htl (List.not_mem_nil _)
      | none =>
        rw [hget] at h
        dsimp only at h ⊢
        by_cases hcomp : (completed.set m.src true).all (· = true)
        · rw [if_pos hcomp] at h ⊢
          rcases List.mem_cons.mp h with hhd | htl
          · exact absurd hhd.symm (by simp)
          · exact absurd htl (List.not_mem_nil _)
        · rw [if_neg hcomp] at h ⊢
          exact ih _ _ h
      | some (some v) =>
        rw [hget] at h
        dsimp only at h ⊢
        by_cases hcomp : (completed.set m.src true).all (· = true)
        · rw [if_pos hcomp] at h ⊢
          rcases List.mem_cons.mp h with hhd | htl
          · exact absurd hhd.symm (by simp)
          · exact absurd htl (List.not_mem_nil _)
        · rw [if_neg hcomp] at h ⊢
          exact ih _ _ h

/-- `debounceTime` on a tuples-then-error trace: still tuples then the
error (a pending value may fire before the error, the rest is dropped). -/
theorem debounce_error_last {β : Type} (t : Nat) :
    ∀ (pre : List (CMsg β)) (pending : Option (Nat × β)),
      (∀ m ∈ pre, m.isTuple = true) →
      ∃ pre', debounceRun pending (pre ++ [CMsg.error t]) = pre' ++ [.error t] ∧
        ∀ m ∈ pre', m.isTuple = true := by
  intro pre
  induction pre with
  | nil =>
    intro pending _
    cases pending with
    | none =>
      exact ⟨[], rfl, fun x hx => absurd hx (List.not_mem_nil _)⟩
    | some p =>
      rcases p with ⟨t0, v⟩
      by_cases hle : t0 + 10 ≤ t
      · refine ⟨[.next (t0 + 10) v], ?_, ?_⟩
        · show (if t0 + 10 ≤ t then [CMsg.next (t0 + 10) v] else ([] : List (CMsg β)))
              ++ [CMsg.error t] = [CMsg.next (t0 + 10) v] ++ [CMsg.error t]
          rw [if_pos hle]
        · intro x hx
          rcases List.mem_cons.mp hx with h1 | h2
          · rw [h1]; rfl
          · exact absurd h2 (List.not_mem_nil _)
      · refine ⟨[], ?_, fun x hx => absurd hx (List.not_mem_nil _)⟩
        show (if t0 + 10 ≤ t then [CMsg.next (t0 + 10) v] else ([] : List (CMsg β)))
            ++ [CMsg.error t] = [] ++ [CMsg.error t]
        rw [if_neg hle]
  | cons p rest ih =>
    intro pending hall
    have hp := hall p (List.mem_cons_self _ _)
    match p with
    | .error te => exact absurd hp (by simp [CMsg.isTuple])
    | .complete te => exact absurd hp (by simp [CMsg.isTuple])
    | .next t0 v =>
      obtain ⟨pre'', heq, hall''⟩ :=
        ih (some (t0, v)) (fun x hx => hall x (List.mem_cons_of_mem _ hx))
      cases pending with
      | none =>
        refine ⟨pre'', ?_, hall''⟩
        show debounceRun (some (t0, v)) (rest ++ [CMsg.error t]) = pre'' ++ [CMsg.error t]
        exact heq
      | some q =>
        rcases q with ⟨t1, w⟩
        by_cases hle : t1 + 10 ≤ t0
        · refine ⟨.next (t1 + 10) w :: pre'', ?_, ?_⟩
          · show (if t1 + 10 ≤ t0 then [CMsg.next (t1 + 10) w] else ([] : List (CMsg β)))
                ++ debounceRun (some (t0, v)) (rest ++ [CMsg.error t])
                = (CMsg.next (t1 + 10) w :: pre'') ++ [CMsg.error t]
            rw [if_pos hle, heq, List.singleton_append, List.cons_append]
          · intro x hx
            rcases List.mem_cons.mp hx with h1 | h2
            · rw [h1]; rfl
            · exact hall'' x h2
        · refine ⟨pre'', ?_, hall''⟩
          show (if t1 + 10 ≤ t0 then [CMsg.next (t1 + 10) w] else ([] : List (CMsg β)))
              ++ debounceRun (some (t0, v)) (rest ++ [CMsg.error t])
              = pre'' ++ [CMsg.error t]
          rw [if_neg hle, heq, List.nil_append]

/-- `distinctUntilChanged` on a tuples-then-error trace: a subsequence of
the tuples, then the error. -/
theorem distinct_error_last {β : Type} [DecidableEq β] (t : Nat) :
    ∀ (pre : List (CMsg β)) (last : Option β),
      (∀ m ∈ pre, m.isTuple = true) →
      ∃ pre', distinctRun last (pre ++ [CMsg.error t]) = pre' ++ [.error t] ∧
        ∀ m ∈ pre', m.isTuple = true := by
  intro pre
  induction pre with
  | nil =>
    intro last _
    exact ⟨[], by rw [List.nil_append, distinctRun], fun x hx => absurd hx (List.not_mem_nil _)⟩
  | cons p rest ih =>
    intro last hall
    have hp := hall p (List.mem_cons_self _ _)
    match p with
    | .error te => exact absurd hp (by simp [CMsg.isTuple])
    | .complete te => exact absurd hp (by simp [CMsg.isTuple])
    | .next t0 v =>
      rw [List.cons_append, distinctRun]
      by_cases hlast : last = some v
      · rw [if_pos hlast]
        exact ih last (fun x hx => hall x (List.mem_cons_of_mem _ hx))
      · rw [if_neg hlast]
        obtain ⟨pre'', heq, hall''⟩ :=
          ih (some v) (fun x hx => hall x (List.mem_cons_of_mem _ hx))
        refine ⟨.next t0 v :: pre'', by rw [heq, List.cons_append], ?_⟩
        intro x hx
        rcases List.mem_cons.mp hx with h1 | h2
        · rw [h1]; rfl
        · exact hall'' x h2

/-- `catchError(of([]))` on a tuples-then-error trace: the tuples, then
the empty tuple in place of the error, then completion. -/
theorem catch_error_last {α : Type} (t : Nat) :
    ∀ (pre : List (CMsg (List α))),
      (∀ m ∈ pre, m.isTuple = true) →
      catchRun (pre ++ [CMsg.error t]) = pre ++ [.next t [], .complete t] := by
  intro pre
  induction pre with
  | nil => intro _; rfl
  | cons p rest ih =>
    intro hall
    have hp := hall p (List.mem_cons_self _ _)
    match p with
    | .error te => exact absurd hp (by simp [CMsg.isTuple])
    | .complete te => exact absurd hp (by simp [CMsg.isTuple])
    | .next t0 v =>
      rw [List.cons_append, catchRun, ih (fun x hx => hall x (List.mem_cons_of_mem _ hx))]
      rfl

/-- **C8 (amended).** If any fused source errors (so the `combineLatest`
stage errors at time `t`), the fused stream emits an empty tuple in place
of propagating the error — and then completes: subscribers see some
combined tuples, the empty tuple, and stream end; no error is ever
delivered, and no further combined tuples follow the empty one. -/
theorem c8_error_degrades_to_empty_tuple (α : Type) [DecidableEq α] (k : Nat)
    (hk : k ≠ 0) (input : List (SrcMsg α)) (t : Nat)
    (herr : CMsg.error t
      ∈ clRun (List.replicate k (none : Option α)) (List.replicate k false) input) :
    ∃ pre, fuseStreamsRun α k input = pre ++ [.next t [], .complete t] ∧
      (∀ m ∈ pre, m.isTuple = true) ∧
      ∀ t', CMsg.error t' ∉ fuseStreamsRun α k input := by
  obtain ⟨pre1, heq1, hall1⟩ := clRun_error_last t input _ _ herr
  obtain ⟨pre2, heq2, hall2⟩ := debounce_error_last t pre1 none hall1
  obtain ⟨pre3, heq3, hall3⟩ := distinct_error_last t pre2 none hall2
  have heq4 := catch_error_last t pre3 hall3
  have hfuse : fuseStreamsRun α k input = pre3 ++ [.next t [], .complete t] := by
    unfold fuseStreamsRun
    rw [if_neg hk, heq1, heq2, heq3, heq4]
  refine ⟨pre3, hfuse, hall3, ?_⟩
  intro t' hmem
  rw [hfuse] at hmem
  rcases List.mem_append.mp hmem with h1 | h2
  · have := hall3 _ h1
    simp [CMsg.isTuple] at this
  · rcases List.mem_cons.mp h2 with h3 | h4
    · exact absurd h3.symm (by simp)
    · rcases List.mem_cons.mp h4 with h5 | h6
      · exact absurd h5.symm (by simp)
      · exact absurd h6 (List.not_mem_nil _)

/-- Source timeline for the counterexample: source 0 emits `1` at 0,
source 1 emits `2` at 20 and errors at 40, source 0 emits `3` at 60. -/
def c8Input : List (SrcMsg Nat) :=
  [⟨0, 0, .next 1⟩, ⟨20, 1, .next 2⟩, ⟨40, 1, .error⟩, ⟨60, 0, .next 3⟩]

/-- **C8 (counterexample).** With the sources of `c8Input`, the fused
stream delivers the tuple `[1, 2]`, then — when source 1 errors — the
empty tuple, and then **completes**: the subscriber sees the stream end,
and the value `3` source 0 produces after the error is never delivered in
any tuple.  This refutes the claim that the fused stream stays alive and
keeps delivering subsequent combined tuples. -/
theorem c8_counterexample :
    fuseStreamsRun Nat 2 c8Input
      = [.next 30 [1, 2], .next 40 [], .complete 40] ∧
    CMsg.complete 40 ∈ fuseStreamsRun Nat 2 c8Input ∧
    (fuseStreamsRun Nat 2 c8Input).filterMap
        (fun m => match m with | .next _ v => some v | _ => none)
      = [[1, 2], []] := by
  refine ⟨by decide, by decide, by decide⟩

theorem c8_witness :
    ∃ pre, fuseStreamsRun Nat 2 c8Input = pre ++ [.next 40 [], .complete 40] ∧
      (∀ m ∈ pre, m.isTuple = true) ∧
      ∀ t', CMsg.error t' ∉ fuseStreamsRun Nat 2 c8Input :=
  c8_error_degrades_to_empty_tuple Nat 2 (by decide) c8Input 40 (by decide)

end Phantom
